import Mathlib

/-!
Verification of the reconciliation engine of a PostgreSQL schema-comparison
tool.  The Python sources are embedded shallowly: dataclasses become
structures, `dict[str, X]` becomes an association list `StrMap X`
(iteration-ordered, keys unique in intended use), regex-based text
transformations become recursive functions over `List Char`, and the pure
analysis pipeline (`analysis.py`) becomes total Lean functions.
-/

namespace Pgcmp

/-! ## Character classes

`[^a-zA-Z0-9]` in the source is an ASCII class, modelled exactly.
Python `\s` and `str.strip()` additionally match Unicode whitespace; we
model the full whitespace code-point list.  Python `\d` also matches
non-ASCII Unicode decimal digits; the auto-generated constraint names the
regex targets are ASCII, so digits are modelled as ASCII `0-9`. -/

/-- Matches the regex class `[a-zA-Z0-9]` from `normalize_constraint_definition`. -/
def pyAlnum (c : Char) : Bool :=
  (48 ≤ c.toNat && c.toNat ≤ 57) || (65 ≤ c.toNat && c.toNat ≤ 90) ||
    (97 ≤ c.toNat && c.toNat ≤ 122)

/-- Matches the regex class `\d` (modelled over ASCII digits). -/
def pyDigit (c : Char) : Bool :=
  48 ≤ c.toNat && c.toNat ≤ 57

/-- Whitespace as matched by Python `\s` / stripped by `str.strip()`:
ASCII whitespace, the file/group/record/unit separators, and the Unicode
space code points. -/
def pySpace (c : Char) : Bool :=
  c.toNat = 9 || c.toNat = 10 || c.toNat = 11 || c.toNat = 12 || c.toNat = 13 ||
    c.toNat = 28 || c.toNat = 29 || c.toNat = 30 || c.toNat = 31 || c.toNat = 32 ||
    c.toNat = 133 || c.toNat = 160 || c.toNat = 5760 || c.toNat = 8192 ||
    c.toNat = 8193 || c.toNat = 8194 || c.toNat = 8195 || c.toNat = 8196 ||
    c.toNat = 8197 || c.toNat = 8198 || c.toNat = 8199 || c.toNat = 8200 ||
    c.toNat = 8201 || c.toNat = 8202 || c.toNat = 8232 || c.toNat = 8233 ||
    c.toNat = 8239 || c.toNat = 8287 || c.toNat = 12288

/-- The characters that can survive `collapseNonAlnum`: alphanumerics and
the plain space. -/
def goodChar (c : Char) : Bool :=
  pyAlnum c || c == ' '

/-- The shape of the normalizer's intermediate output: every character is
alphanumeric or a space, and no two spaces are adjacent. -/
def OkA (l : List Char) : Prop :=
  (∀ c ∈ l, goodChar c = true) ∧ l.Chain' (fun a b => ¬(a = ' ' ∧ b = ' '))

/-! ## Regex substitutions of `normalize_constraint_definition`

The source (`pgcmp/db/constraints.py`) applies, in order:
`re.sub` deleting four literal cast patterns, `re.sub(r"[^a-zA-Z0-9]+", " ", _)`,
`re.sub(r"\s+", " ", _)` and `.strip()`.  `re.sub` scans left to right and
replaces maximal non-overlapping matches, continuing after each match. -/

/-- Step function for literal-pattern deletion.  `skip` counts characters of
an already-matched occurrence that remain to be deleted; at `skip = 0` the
scanner tests for the pattern `p :: ps` at the current position. -/
def removeOccA (p : Char) (ps : List Char) : Nat → List Char → List Char
  | _, [] => []
  | Nat.succ k, _ :: cs => removeOccA p ps k cs
  | 0, c :: cs =>
    if (p :: ps).isPrefixOf (c :: cs) then removeOccA p ps ps.length cs
    else c :: removeOccA p ps 0 cs

/-- Delete every occurrence of the literal pattern `p :: ps`, scanning left
to right (the semantics of `re.sub(pattern, "", s)` for a literal pattern:
maximal non-overlapping matches, scanning resumes after each match). -/
def removeOcc (p : Char) (ps : List Char) (l : List Char) : List Char :=
  removeOccA p ps 0 l

/-- Step function for `collapseNonAlnum`; `inRun` records whether the scanner
is inside a non-alphanumeric run whose single replacement space has already
been emitted. -/
def collapseNA : Bool → List Char → List Char
  | _, [] => []
  | inRun, c :: cs =>
    if pyAlnum c then c :: collapseNA false cs
    else if inRun then collapseNA true cs
    else ' ' :: collapseNA true cs

/-- Replace every maximal run of non-`[a-zA-Z0-9]` characters by a single
space (the semantics of `re.sub(r"[^a-zA-Z0-9]+", " ", s)`). -/
def collapseNonAlnum (l : List Char) : List Char :=
  collapseNA false l

/-- Step function for `collapseWs`; `inRun` records whether the scanner is
inside a whitespace run whose replacement space has been emitted. -/
def collapseWsA : Bool → List Char → List Char
  | _, [] => []
  | inRun, c :: cs =>
    if pySpace c then
      if inRun then collapseWsA true cs else ' ' :: collapseWsA true cs
    else c :: collapseWsA false cs

/-- Replace every maximal whitespace run by a single space
(the semantics of `re.sub(r"\s+", " ", s)`). -/
def collapseWs (l : List Char) : List Char :=
  collapseWsA false l

/-- Python `str.strip()`: drop whitespace from both ends. -/
def pyStrip (l : List Char) : List Char :=
  ((l.dropWhile pySpace).reverse.dropWhile pySpace).reverse

/-- The cast patterns removed by `normalize_constraint_definition`, in
source order.  Each starts with a colon. -/
def castPats : List (List Char) :=
  ["::character varying[]".data, "::character varying".data,
    "::text[]".data, "::text".data]

/-- Apply the four cast deletions in source order. -/
def removeCasts (l : List Char) : List Char :=
  removeOcc ':' ":text".data
    (removeOcc ':' ":text[]".data
      (removeOcc ':' ":character varying".data
        (removeOcc ':' ":character varying[]".data l)))

/-- The character-level pipeline of `normalize_constraint_definition`. -/
def normCore (l : List Char) : List Char :=
  pyStrip (collapseWs (collapseNonAlnum (removeCasts l)))

/-- `normalize_constraint_definition` from `pgcmp/db/constraints.py`:
null-preserving normalization of a constraint definition. -/
def normalize_constraint_definition : Option String → Option String
  | none => none
  | some s => some ⟨normCore s.data⟩

/-! ## The auto-generated constraint-name filter

`AUTO_GENERATED_CONSTRAINT_RE = re.compile(r"^\d+_\d+_\d+_not_null$")`,
applied with `.match` in `fetch_constraints`.  `$` in Python also matches
just before one newline at the very end of the string. -/

/-- Accept the end of the regex: `$` matches the end of the string or just
before a single trailing newline. -/
def pyDollar (l : List Char) : Bool :=
  l = [] || l = ['\n']

/-- Consume `\d+_` at the front of the input: a non-empty greedy digit run
followed by an underscore, returning the remainder. -/
def digitsThenUnderscore (l : List Char) : Option (List Char) :=
  if l.takeWhile pyDigit = [] then none
  else
    match l.dropWhile pyDigit with
    | c :: r => if c = '_' then some r else none
    | [] => none

/-- The literal tail `_not_null` of the pattern. -/
def notNullSuffix : List Char := "_not_null".data

/-- Consume the final `\d+_not_null$` of the pattern. -/
def digitsThenNotNull (r4 : List Char) : Bool :=
  decide (r4.takeWhile pyDigit ≠ []) &&
    (notNullSuffix.isPrefixOf (r4.dropWhile pyDigit) &&
      pyDollar ((r4.dropWhile pyDigit).drop notNullSuffix.length))

/-- The matcher for `^\d+_\d+_\d+_not_null$` (the pattern is deterministic:
digits and underscores are disjoint, so greedy `\d+` needs no backtracking). -/
def matchAutoGen (l : List Char) : Bool :=
  match digitsThenUnderscore l with
  | none => false
  | some r2 =>
    match digitsThenUnderscore r2 with
    | none => false
    | some r4 => digitsThenNotNull r4

/-! ## Snapshot model (`pgcmp/db/*.py`)

Each dataclass becomes a structure; `dict[str, X]` becomes an association
list `StrMap X` in iteration order (keys unique in intended use; theorems
that depend on uniqueness take a `Nodup` hypothesis).  Only the fields and
operations the analysis layer reads are relevant, but every dataclass field
is kept. -/

/-- A Python `dict[str, α]` snapshot collection, in iteration order. -/
abbrev StrMap (α : Type) : Type := List (String × α)

/-- The keys of a collection, in iteration order. -/
def mapKeys {α : Type} (m : StrMap α) : List String :=
  m.map Prod.fst

/-- Python `key in d` (dict membership). -/
def mapContains {α : Type} (m : StrMap α) (k : String) : Bool :=
  (m.lookup k).isSome

/-- `pgcmp/db/schemas.py` `Schema`. -/
structure Schema where
  schema_name : String
  schema_owner : String
deriving DecidableEq

/-- `Schema.key`. -/
def Schema.key (s : Schema) : String := s.schema_name

/-- `pgcmp/db/tables.py` `Table`. -/
structure Table where
  table_schema : String
  table_name : String
  table_type : String
  row_count : Option Int
deriving DecidableEq

/-- `Table.key`. -/
def Table.key (t : Table) : String := t.table_schema ++ "." ++ t.table_name

/-- `pgcmp/db/columns.py` `Column`. -/
structure Column where
  table_schema : String
  table_name : String
  column_name : String
  column_default : Option String
  is_nullable : String
  data_type : String
  character_maximum_length : Option Int
  numeric_precision : Option Int
  numeric_scale : Option Int
deriving DecidableEq

/-- `Column.key`. -/
def Column.key (c : Column) : String :=
  c.table_schema ++ "." ++ c.table_name ++ "." ++ c.column_name

/-- `pgcmp/db/indexes.py` `Index`. -/
structure Index where
  schema_name : String
  table_name : String
  index_name : String
  is_unique : Bool
  is_primary : Bool
  index_definition : String
deriving DecidableEq

/-- `Index.key`. -/
def Index.key (i : Index) : String := i.schema_name ++ "." ++ i.index_name

/-- `pgcmp/db/constraints.py` `Constraint`. -/
structure Constraint where
  constraint_schema : String
  constraint_name : String
  table_schema : String
  table_name : String
  constraint_type : String
  constraint_definition : Option String
deriving DecidableEq

/-- `Constraint.key`. -/
def Constraint.key (c : Constraint) : String :=
  c.table_schema ++ "." ++ c.table_name ++ "." ++ c.constraint_name

/-- The pure filtering step of `fetch_constraints`: rows whose name matches
`AUTO_GENERATED_CONSTRAINT_RE` are skipped (the psycopg query supplies the
rows; building the keyed dict is modelled by the surrounding `StrMap`). -/
def fetch_constraints_rows (rows : List Constraint) : List Constraint :=
  rows.filter (fun c => !matchAutoGen c.constraint_name.data)

/-- `pgcmp/db/views.py` `View`. -/
structure View where
  table_schema : String
  table_name : String
  view_definition : Option String
  is_updatable : String
  is_insertable_into : String
deriving DecidableEq

/-- `View.key`. -/
def View.key (v : View) : String := v.table_schema ++ "." ++ v.table_name

/-- `pgcmp/db/triggers.py` `Trigger`. -/
structure Trigger where
  trigger_schema : String
  trigger_name : String
  event_manipulation : String
  event_object_schema : String
  event_object_table : String
  action_timing : String
  action_orientation : String
  action_statement : String
deriving DecidableEq

/-- `Trigger.key`. -/
def Trigger.key (t : Trigger) : String :=
  t.trigger_schema ++ "." ++ t.event_object_table ++ "." ++ t.trigger_name

/-- `pgcmp/db/functions.py` `Function`. -/
structure Function where
  schema_name : String
  function_name : String
  function_type : String
  argument_types : String
  return_type : Option String
  function_definition : Option String
  language : String
  is_strict : Bool
  volatility : String
deriving DecidableEq

/-- `Function.key`. -/
def Function.key (f : Function) : String :=
  f.schema_name ++ "." ++ f.function_name ++ "(" ++ f.argument_types ++ ")"

/-- `pgcmp/db/materialized_views.py` `MaterializedView`. -/
structure MaterializedView where
  schema_name : String
  matview_name : String
  definition : String
  has_indexes : Bool
  is_populated : Bool
deriving DecidableEq

/-- `MaterializedView.key`. -/
def MaterializedView.key (m : MaterializedView) : String :=
  m.schema_name ++ "." ++ m.matview_name

/-- `pgcmp/db/sequences.py` `Sequence`. -/
structure Sequence where
  sequence_schema : String
  sequence_name : String
  data_type : String
  start_value : Int
  minimum_value : Int
  maximum_value : Int
  increment : Int
  cycle_option : String
deriving DecidableEq

/-- `pgcmp/db/database.py` `Database`: a complete schema snapshot. -/
structure Database where
  connection_string : String
  postgres_version : String
  schemas : StrMap Schema
  tables : StrMap Table
  columns : StrMap Column
  indexes : StrMap Index
  constraints : StrMap Constraint
  views : StrMap View
  triggers : StrMap Trigger
  functions : StrMap Function
  materialized_views : StrMap MaterializedView
  sequences : StrMap Sequence
  row_counts_before_sql : StrMap Int
deriving DecidableEq

/-! ## Analysis model (`pgcmp/analysis.py`)

Every analysis dataclass keeps the base fields
`name / in_left / in_right / left_object / right_object` of `AnalysisRow`
plus its own; `action`, `is_modified` and the leaf `is_different` are the
base-class derivations, shared through `actionOf` / `leafDifferent`. -/

/-- The `Action` enum. -/
inductive Action where
  | NONE
  | ADD
  | REMOVE
  | MODIFY
deriving DecidableEq

/-- Python `str(x)` for an optional string (`None` prints as `"None"`). -/
def pyShowOptStr : Option String → String
  | none => "None"
  | some s => s

/-- Python `str(x)` for an optional integer. -/
def pyShowOptInt : Option Int → String
  | none => "None"
  | some n => toString n

/-- Python `str(x)` for a boolean. -/
def pyShowBool : Bool → String
  | true => "True"
  | false => "False"

/-- `AnalysisRow.action`: derive the action from the presence flags and the
modification list (`is_modified` is `len(mods) > 0`). -/
def actionOf (in_left in_right : Bool) (mods : List String) : Action :=
  if in_left && !in_right then Action.ADD
  else if in_right && !in_left then Action.REMOVE
  else if !mods.isEmpty then Action.MODIFY
  else Action.NONE

/-- `AnalysisRow.is_different` for leaf kinds: presence flags disagree or
the modification list is non-empty. -/
def leafDifferent (in_left in_right : Bool) (mods : List String) : Bool :=
  (in_left != in_right) || !mods.isEmpty

/-- `ColumnAnalysis` rows. -/
structure ColumnAnalysis where
  name : String
  in_left : Bool
  in_right : Bool
  left_object : Option Column
  right_object : Option Column
  schema_name : String
  table_name : String
deriving DecidableEq

/-- `ColumnAnalysis.get_modifications`: type, max-length, precision, scale,
nullability, default, in source order. -/
def ColumnAnalysis.get_modifications (a : ColumnAnalysis) : List String :=
  match a.left_object, a.right_object with
  | some left, some right =>
    (if left.data_type ≠ right.data_type then
      ["type: " ++ right.data_type ++ " -> " ++ left.data_type] else [])
    ++ (if left.character_maximum_length ≠ right.character_maximum_length then
      ["max_length: " ++ pyShowOptInt right.character_maximum_length ++ " -> "
        ++ pyShowOptInt left.character_maximum_length] else [])
    ++ (if left.numeric_precision ≠ right.numeric_precision then
      ["precision: " ++ pyShowOptInt right.numeric_precision ++ " -> "
        ++ pyShowOptInt left.numeric_precision] else [])
    ++ (if left.numeric_scale ≠ right.numeric_scale then
      ["scale: " ++ pyShowOptInt right.numeric_scale ++ " -> "
        ++ pyShowOptInt left.numeric_scale] else [])
    ++ (if left.is_nullable ≠ right.is_nullable then
      ["nullable: " ++ (if right.is_nullable = "YES" then "null" else "not null")
        ++ " -> " ++ (if left.is_nullable = "YES" then "null" else "not null")] else [])
    ++ (if left.column_default ≠ right.column_default then
      ["default: " ++ pyShowOptStr right.column_default ++ " -> "
        ++ pyShowOptStr left.column_default] else [])
  | _, _ => []

/-- `ColumnAnalysis.is_modified`. -/
def ColumnAnalysis.is_modified (a : ColumnAnalysis) : Bool :=
  !a.get_modifications.isEmpty

/-- `ColumnAnalysis.action`. -/
def ColumnAnalysis.action (a : ColumnAnalysis) : Action :=
  actionOf a.in_left a.in_right a.get_modifications

/-- `ColumnAnalysis.is_different` (base-class derivation). -/
def ColumnAnalysis.is_different (a : ColumnAnalysis) : Bool :=
  leafDifferent a.in_left a.in_right a.get_modifications

/-- `TriggerAnalysis` rows. -/
structure TriggerAnalysis where
  name : String
  in_left : Bool
  in_right : Bool
  left_object : Option Trigger
  right_object : Option Trigger
  schema_name : String
  table_name : String
deriving DecidableEq

/-- `TriggerAnalysis.get_modifications`: event, timing, orientation, then a
`statement changed` flag, in source order. -/
def TriggerAnalysis.get_modifications (a : TriggerAnalysis) : List String :=
  match a.left_object, a.right_object with
  | some left, some right =>
    (if left.event_manipulation ≠ right.event_manipulation then
      ["event: " ++ right.event_manipulation ++ " -> " ++ left.event_manipulation] else [])
    ++ (if left.action_timing ≠ right.action_timing then
      ["timing: " ++ right.action_timing ++ " -> " ++ left.action_timing] else [])
    ++ (if left.action_orientation ≠ right.action_orientation then
      ["orientation: " ++ right.action_orientation ++ " -> " ++ left.action_orientation] else [])
    ++ (if left.action_statement ≠ right.action_statement then
      ["statement changed"] else [])
  | _, _ => []

/-- `TriggerAnalysis.is_modified`. -/
def TriggerAnalysis.is_modified (a : TriggerAnalysis) : Bool :=
  !a.get_modifications.isEmpty

/-- `TriggerAnalysis.action`. -/
def TriggerAnalysis.action (a : TriggerAnalysis) : Action :=
  actionOf a.in_left a.in_right a.get_modifications

/-- `TriggerAnalysis.is_different`. -/
def TriggerAnalysis.is_different (a : TriggerAnalysis) : Bool :=
  leafDifferent a.in_left a.in_right a.get_modifications

/-- `IndexAnalysis` rows. -/
structure IndexAnalysis where
  name : String
  in_left : Bool
  in_right : Bool
  left_object : Option Index
  right_object : Option Index
  schema_name : String
  table_name : String
deriving DecidableEq

/-- `IndexAnalysis.get_modifications`: uniqueness, primary flag, then the
raw index definition (compared without normalization), in source order. -/
def IndexAnalysis.get_modifications (a : IndexAnalysis) : List String :=
  match a.left_object, a.right_object with
  | some left, some right =>
    (if left.is_unique ≠ right.is_unique then
      ["unique: " ++ pyShowBool right.is_unique ++ " -> " ++ pyShowBool left.is_unique] else [])
    ++ (if left.is_primary ≠ right.is_primary then
      ["primary: " ++ pyShowBool right.is_primary ++ " -> " ++ pyShowBool left.is_primary] else [])
    ++ (if left.index_definition ≠ right.index_definition then
      ["definition changed"] else [])
  | _, _ => []

/-- `IndexAnalysis.is_modified`. -/
def IndexAnalysis.is_modified (a : IndexAnalysis) : Bool :=
  !a.get_modifications.isEmpty

/-- `IndexAnalysis.action`. -/
def IndexAnalysis.action (a : IndexAnalysis) : Action :=
  actionOf a.in_left a.in_right a.get_modifications

/-- `IndexAnalysis.is_different`. -/
def IndexAnalysis.is_different (a : IndexAnalysis) : Bool :=
  leafDifferent a.in_left a.in_right a.get_modifications

/-- `ConstraintAnalysis` rows. -/
structure ConstraintAnalysis where
  name : String
  in_left : Bool
  in_right : Bool
  left_object : Option Constraint
  right_object : Option Constraint
  schema_name : String
  table_name : String
deriving DecidableEq

/-- `ConstraintAnalysis.get_modifications`: constraint type, then the
definition compared after `normalize_constraint_definition`. -/
def ConstraintAnalysis.get_modifications (a : ConstraintAnalysis) : List String :=
  match a.left_object, a.right_object with
  | some left, some right =>
    (if left.constraint_type ≠ right.constraint_type then
      ["type: " ++ right.constraint_type ++ " -> " ++ left.constraint_type] else [])
    ++ (if normalize_constraint_definition left.constraint_definition
          ≠ normalize_constraint_definition right.constraint_definition then
      ["definition changed"] else [])
  | _, _ => []

/-- `ConstraintAnalysis.is_modified`. -/
def ConstraintAnalysis.is_modified (a : ConstraintAnalysis) : Bool :=
  !a.get_modifications.isEmpty

/-- `ConstraintAnalysis.action`. -/
def ConstraintAnalysis.action (a : ConstraintAnalysis) : Action :=
  actionOf a.in_left a.in_right a.get_modifications

/-- `ConstraintAnalysis.is_different`. -/
def ConstraintAnalysis.is_different (a : ConstraintAnalysis) : Bool :=
  leafDifferent a.in_left a.in_right a.get_modifications

/-- `FunctionAnalysis` rows. -/
structure FunctionAnalysis where
  name : String
  in_left : Bool
  in_right : Bool
  left_object : Option Function
  right_object : Option Function
  schema_name : String
deriving DecidableEq

/-- `FunctionAnalysis.get_modifications`: return type, language, strictness,
volatility, then a `body changed` flag, in source order. -/
def FunctionAnalysis.get_modifications (a : FunctionAnalysis) : List String :=
  match a.left_object, a.right_object with
  | some left, some right =>
    (if left.return_type ≠ right.return_type then
      ["return_type: " ++ pyShowOptStr right.return_type ++ " -> "
        ++ pyShowOptStr left.return_type] else [])
    ++ (if left.language ≠ right.language then
      ["language: " ++ right.language ++ " -> " ++ left.language] else [])
    ++ (if left.is_strict ≠ right.is_strict then
      ["strict: " ++ pyShowBool right.is_strict ++ " -> " ++ pyShowBool left.is_strict] else [])
    ++ (if left.volatility ≠ right.volatility then
      ["volatility: " ++ right.volatility ++ " -> " ++ left.volatility] else [])
    ++ (if left.function_definition ≠ right.function_definition then
      ["body changed"] else [])
  | _, _ => []

/-- `FunctionAnalysis.is_modified`. -/
def FunctionAnalysis.is_modified (a : FunctionAnalysis) : Bool :=
  !a.get_modifications.isEmpty

/-- `FunctionAnalysis.action`. -/
def FunctionAnalysis.action (a : FunctionAnalysis) : Action :=
  actionOf a.in_left a.in_right a.get_modifications

/-- `FunctionAnalysis.is_different`. -/
def FunctionAnalysis.is_different (a : FunctionAnalysis) : Bool :=
  leafDifferent a.in_left a.in_right a.get_modifications

/-- `ViewAnalysis` rows. -/
structure ViewAnalysis where
  name : String
  in_left : Bool
  in_right : Bool
  left_object : Option View
  right_object : Option View
  schema_name : String
deriving DecidableEq

/-- `ViewAnalysis.get_modifications`: updatable flag, insertable flag, then
the raw view definition (compared without normalization). -/
def ViewAnalysis.get_modifications (a : ViewAnalysis) : List String :=
  match a.left_object, a.right_object with
  | some left, some right =>
    (if left.is_updatable ≠ right.is_updatable then
      ["updatable: " ++ right.is_updatable ++ " -> " ++ left.is_updatable] else [])
    ++ (if left.is_insertable_into ≠ right.is_insertable_into then
      ["insertable: " ++ right.is_insertable_into ++ " -> " ++ left.is_insertable_into] else [])
    ++ (if left.view_definition ≠ right.view_definition then
      ["definition changed"] else [])
  | _, _ => []

/-- `ViewAnalysis.is_modified`. -/
def ViewAnalysis.is_modified (a : ViewAnalysis) : Bool :=
  !a.get_modifications.isEmpty

/-- `ViewAnalysis.action`. -/
def ViewAnalysis.action (a : ViewAnalysis) : Action :=
  actionOf a.in_left a.in_right a.get_modifications

/-- `ViewAnalysis.is_different`. -/
def ViewAnalysis.is_different (a : ViewAnalysis) : Bool :=
  leafDifferent a.in_left a.in_right a.get_modifications

/-- `MaterializedViewAnalysis` rows. -/
structure MaterializedViewAnalysis where
  name : String
  in_left : Bool
  in_right : Bool
  left_object : Option MaterializedView
  right_object : Option MaterializedView
  schema_name : String
deriving DecidableEq

/-- `MaterializedViewAnalysis.get_modifications`: the raw definition only. -/
def MaterializedViewAnalysis.get_modifications (a : MaterializedViewAnalysis) : List String :=
  match a.left_object, a.right_object with
  | some left, some right =>
    if left.definition ≠ right.definition then ["definition changed"] else []
  | _, _ => []

/-- `MaterializedViewAnalysis.is_modified`. -/
def MaterializedViewAnalysis.is_modified (a : MaterializedViewAnalysis) : Bool :=
  !a.get_modifications.isEmpty

/-- `MaterializedViewAnalysis.action`. -/
def MaterializedViewAnalysis.action (a : MaterializedViewAnalysis) : Action :=
  actionOf a.in_left a.in_right a.get_modifications

/-- `MaterializedViewAnalysis.is_different`. -/
def MaterializedViewAnalysis.is_different (a : MaterializedViewAnalysis) : Bool :=
  leafDifferent a.in_left a.in_right a.get_modifications

/-- `TableAnalysis` rows, with the nested child analyses. -/
structure TableAnalysis where
  name : String
  in_left : Bool
  in_right : Bool
  left_object : Option Table
  right_object : Option Table
  schema_name : String
  columns : List ColumnAnalysis
  triggers : List TriggerAnalysis
  indexes : List IndexAnalysis
  constraints : List ConstraintAnalysis
deriving DecidableEq

/-- `TableAnalysis.get_modifications` is the inherited base implementation
(the empty list: tables have no own field comparison). -/
def TableAnalysis.get_modifications (_ : TableAnalysis) : List String :=
  []

/-- `TableAnalysis.is_modified`. -/
def TableAnalysis.is_modified (a : TableAnalysis) : Bool :=
  !a.get_modifications.isEmpty

/-- `TableAnalysis.action`. -/
def TableAnalysis.action (a : TableAnalysis) : Action :=
  actionOf a.in_left a.in_right a.get_modifications

/-- `TableAnalysis.is_different`: presence flags disagree, or any nested
column / trigger / index / constraint analysis differs (source order). -/
def TableAnalysis.is_different (t : TableAnalysis) : Bool :=
  (t.in_left != t.in_right)
    || t.columns.any ColumnAnalysis.is_different
    || t.triggers.any TriggerAnalysis.is_different
    || t.indexes.any IndexAnalysis.is_different
    || t.constraints.any ConstraintAnalysis.is_different

/-- `SchemaAnalysis` rows, with the nested child analyses. -/
structure SchemaAnalysis where
  name : String
  in_left : Bool
  in_right : Bool
  left_object : Option Schema
  right_object : Option Schema
  tables : List TableAnalysis
  views : List ViewAnalysis
  materialized_views : List MaterializedViewAnalysis
  functions : List FunctionAnalysis
deriving DecidableEq

/-- `SchemaAnalysis.get_modifications` is the inherited base implementation
(the empty list: schemas have no own field comparison). -/
def SchemaAnalysis.get_modifications (_ : SchemaAnalysis) : List String :=
  []

/-- `SchemaAnalysis.is_modified`. -/
def SchemaAnalysis.is_modified (a : SchemaAnalysis) : Bool :=
  !a.get_modifications.isEmpty

/-- `SchemaAnalysis.action`. -/
def SchemaAnalysis.action (a : SchemaAnalysis) : Action :=
  actionOf a.in_left a.in_right a.get_modifications

/-- `SchemaAnalysis.is_different`: presence flags disagree, or any nested
table / view / materialized-view / function analysis differs (source order). -/
def SchemaAnalysis.is_different (s : SchemaAnalysis) : Bool :=
  (s.in_left != s.in_right)
    || s.tables.any TableAnalysis.is_different
    || s.views.any ViewAnalysis.is_different
    || s.materialized_views.any MaterializedViewAnalysis.is_different
    || s.functions.any FunctionAnalysis.is_different

/-- `SummaryRow`. -/
structure SummaryRow where
  object_type : String
  left_count : Nat
  right_count : Nat
deriving DecidableEq

/-! ## The reconciliation pipeline -/

/-- Lexicographic string comparison by code point, as Python `sorted` uses
(an executable form of `≤` on `String`; the two are proved equivalent in
`keyLe_iff_le`). -/
def strLeData : List Char → List Char → Bool
  | [], _ => true
  | _ :: _, [] => false
  | a :: as, b :: bs => if a < b then true else if b < a then false else strLeData as bs

/-- The key order used by the reconciler. -/
def keyLe (s t : String) : Prop :=
  strLeData s.data t.data = true

instance : DecidableRel keyLe := fun s t => by
  unfold keyLe
  infer_instance

/-- Python `sorted(set(ks₁) | set(ks₂))`: the union of two key lists,
without duplicates, in ascending lexicographic order. -/
def sortedUnion (ks₁ ks₂ : List String) : List String :=
  List.insertionSort keyLe (ks₁ ++ ks₂).dedup

/-- Python `key.split(".", 1)[1] if "." in key else key`. -/
def afterFirstDot (s : String) : String :=
  if s.data.contains '.' then ⟨(s.data.dropWhile (fun c => c != '.')).tail⟩ else s

/-- Python `key.split(".")[-1]`. -/
def afterLastDot (s : String) : String :=
  ⟨(s.data.reverse.takeWhile (fun c => c != '.')).reverse⟩

/-- The shape shared by every `_analyze_*` function of `analysis.py`: form
the sorted union of the two key sets and build one analysis row per key from
membership (`key in d`) and the looked-up objects (`d.get(key)`). -/
def reconcile {α β : Type} (lm rm : StrMap α)
    (mk : String → Bool → Bool → Option α → Option α → β) : List β :=
  (sortedUnion (mapKeys lm) (mapKeys rm)).map
    (fun key => mk key (mapContains lm key) (mapContains rm key)
      (lm.lookup key) (rm.lookup key))

/-- The tables of one schema (the dict comprehension in
`_analyze_tables_for_schema`). -/
def tablesOf (db : Database) (schema_name : String) : StrMap Table :=
  db.tables.filter (fun kv => kv.2.table_schema == schema_name)

/-- The columns of one table, selected by key prefix (the dict comprehension
in `_analyze_columns_for_table`). -/
def columnsOf (db : Database) (schema_name table_name : String) : StrMap Column :=
  db.columns.filter
    (fun kv => (schema_name ++ "." ++ table_name ++ ".").data.isPrefixOf kv.1.data)

/-- The triggers of one table (the dict comprehension in
`_analyze_triggers_for_table`). -/
def triggersOf (db : Database) (schema_name table_name : String) : StrMap Trigger :=
  db.triggers.filter
    (fun kv => kv.2.event_object_schema == schema_name && kv.2.event_object_table == table_name)

/-- The indexes of one table (the dict comprehension in
`_analyze_indexes_for_table`). -/
def indexesOf (db : Database) (schema_name table_name : String) : StrMap Index :=
  db.indexes.filter
    (fun kv => kv.2.schema_name == schema_name && kv.2.table_name == table_name)

/-- The constraints of one table (the dict comprehension in
`_analyze_constraints_for_table`). -/
def constraintsOf (db : Database) (schema_name table_name : String) : StrMap Constraint :=
  db.constraints.filter
    (fun kv => kv.2.table_schema == schema_name && kv.2.table_name == table_name)

/-- The views of one schema (the dict comprehension in
`_analyze_views_for_schema`). -/
def viewsOf (db : Database) (schema_name : String) : StrMap View :=
  db.views.filter (fun kv => kv.2.table_schema == schema_name)

/-- The materialized views of one schema. -/
def matviewsOf (db : Database) (schema_name : String) : StrMap MaterializedView :=
  db.materialized_views.filter (fun kv => kv.2.schema_name == schema_name)

/-- The functions of one schema. -/
def functionsOf (db : Database) (schema_name : String) : StrMap Function :=
  db.functions.filter (fun kv => kv.2.schema_name == schema_name)

/-- The `all_schema_names` key list of `_analyze_schemas`. -/
def all_schema_names (left_db right_db : Database) : List String :=
  sortedUnion (mapKeys left_db.schemas) (mapKeys right_db.schemas)

/-- The `all_table_names` key list of `_analyze_tables_for_schema`. -/
def all_table_names (left_db right_db : Database) (schema_name : String) : List String :=
  sortedUnion (mapKeys (tablesOf left_db schema_name)) (mapKeys (tablesOf right_db schema_name))

/-- The `all_column_keys` key list of `_analyze_columns_for_table`. -/
def all_column_keys (left_db right_db : Database) (schema_name table_name : String) : List String :=
  sortedUnion (mapKeys (columnsOf left_db schema_name table_name))
    (mapKeys (columnsOf right_db schema_name table_name))

/-- The `all_trigger_keys` key list of `_analyze_triggers_for_table`. -/
def all_trigger_keys (left_db right_db : Database) (schema_name table_name : String) : List String :=
  sortedUnion (mapKeys (triggersOf left_db schema_name table_name))
    (mapKeys (triggersOf right_db schema_name table_name))

/-- The `all_index_keys` key list of `_analyze_indexes_for_table`. -/
def all_index_keys (left_db right_db : Database) (schema_name table_name : String) : List String :=
  sortedUnion (mapKeys (indexesOf left_db schema_name table_name))
    (mapKeys (indexesOf right_db schema_name table_name))

/-- The `all_constraint_keys` key list of `_analyze_constraints_for_table`. -/
def all_constraint_keys (left_db right_db : Database) (schema_name table_name : String) : List String :=
  sortedUnion (mapKeys (constraintsOf left_db schema_name table_name))
    (mapKeys (constraintsOf right_db schema_name table_name))

/-- The `all_view_names` key list of `_analyze_views_for_schema`. -/
def all_view_names (left_db right_db : Database) (schema_name : String) : List String :=
  sortedUnion (mapKeys (viewsOf left_db schema_name)) (mapKeys (viewsOf right_db schema_name))

/-- The `all_matview_names` key list of `_analyze_materialized_views_for_schema`. -/
def all_matview_names (left_db right_db : Database) (schema_name : String) : List String :=
  sortedUnion (mapKeys (matviewsOf left_db schema_name)) (mapKeys (matviewsOf right_db schema_name))

/-- The `all_func_keys` key list of `_analyze_functions_for_schema`. -/
def all_func_keys (left_db right_db : Database) (schema_name : String) : List String :=
  sortedUnion (mapKeys (functionsOf left_db schema_name)) (mapKeys (functionsOf right_db schema_name))

/-- `_analyze_columns_for_table`. -/
def _analyze_columns_for_table (left_db right_db : Database)
    (schema_name table_name : String) : List ColumnAnalysis :=
  reconcile (columnsOf left_db schema_name table_name) (columnsOf right_db schema_name table_name)
    (fun key inl inr lo ro =>
      { name := afterLastDot key, in_left := inl, in_right := inr,
        left_object := lo, right_object := ro,
        schema_name := schema_name, table_name := table_name })

/-- `_analyze_triggers_for_table`. -/
def _analyze_triggers_for_table (left_db right_db : Database)
    (schema_name table_name : String) : List TriggerAnalysis :=
  reconcile (triggersOf left_db schema_name table_name) (triggersOf right_db schema_name table_name)
    (fun key inl inr lo ro =>
      { name := afterLastDot key, in_left := inl, in_right := inr,
        left_object := lo, right_object := ro,
        schema_name := schema_name, table_name := table_name })

/-- `_analyze_indexes_for_table`. -/
def _analyze_indexes_for_table (left_db right_db : Database)
    (schema_name table_name : String) : List IndexAnalysis :=
  reconcile (indexesOf left_db schema_name table_name) (indexesOf right_db schema_name table_name)
    (fun key inl inr lo ro =>
      { name := afterFirstDot key, in_left := inl, in_right := inr,
        left_object := lo, right_object := ro,
        schema_name := schema_name, table_name := table_name })

/-- `_analyze_constraints_for_table`. -/
def _analyze_constraints_for_table (left_db right_db : Database)
    (schema_name table_name : String) : List ConstraintAnalysis :=
  reconcile (constraintsOf left_db schema_name table_name) (constraintsOf right_db schema_name table_name)
    (fun key inl inr lo ro =>
      { name := afterFirstDot key, in_left := inl, in_right := inr,
        left_object := lo, right_object := ro,
        schema_name := schema_name, table_name := table_name })

/-- `_analyze_views_for_schema`. -/
def _analyze_views_for_schema (left_db right_db : Database)
    (schema_name : String) : List ViewAnalysis :=
  reconcile (viewsOf left_db schema_name) (viewsOf right_db schema_name)
    (fun key inl inr lo ro =>
      { name := afterFirstDot key, in_left := inl, in_right := inr,
        left_object := lo, right_object := ro, schema_name := schema_name })

/-- `_analyze_materialized_views_for_schema`. -/
def _analyze_materialized_views_for_schema (left_db right_db : Database)
    (schema_name : String) : List MaterializedViewAnalysis :=
  reconcile (matviewsOf left_db schema_name) (matviewsOf right_db schema_name)
    (fun key inl inr lo ro =>
      { name := afterFirstDot key, in_left := inl, in_right := inr,
        left_object := lo, right_object := ro, schema_name := schema_name })

/-- `_analyze_functions_for_schema`. -/
def _analyze_functions_for_schema (left_db right_db : Database)
    (schema_name : String) : List FunctionAnalysis :=
  reconcile (functionsOf left_db schema_name) (functionsOf right_db schema_name)
    (fun key inl inr lo ro =>
      { name := afterFirstDot key, in_left := inl, in_right := inr,
        left_object := lo, right_object := ro, schema_name := schema_name })

/-- `_analyze_tables_for_schema`: one row per table key; the child analyses
are built only when the table is present in both databases. -/
def _analyze_tables_for_schema (left_db right_db : Database)
    (schema_name : String) : List TableAnalysis :=
  reconcile (tablesOf left_db schema_name) (tablesOf right_db schema_name)
    (fun key inl inr lo ro =>
      let table_name := afterFirstDot key
      { name := table_name, in_left := inl, in_right := inr,
        left_object := lo, right_object := ro, schema_name := schema_name,
        columns := if inl && inr then
          _analyze_columns_for_table left_db right_db schema_name table_name else [],
        triggers := if inl && inr then
          _analyze_triggers_for_table left_db right_db schema_name table_name else [],
        indexes := if inl && inr then
          _analyze_indexes_for_table left_db right_db schema_name table_name else [],
        constraints := if inl && inr then
          _analyze_constraints_for_table left_db right_db schema_name table_name else [] })

/-- `_analyze_schemas`: one row per schema name, children initially empty. -/
def _analyze_schemas (left_db right_db : Database) : List SchemaAnalysis :=
  reconcile left_db.schemas right_db.schemas
    (fun name inl inr _ _ =>
      { name := name, in_left := inl, in_right := inr,
        left_object := none, right_object := none,
        tables := [], views := [], materialized_views := [], functions := [] })

/-- `_build_summary`. -/
def _build_summary (left_db right_db : Database) : List SummaryRow :=
  [⟨"Schemas", left_db.schemas.length, right_db.schemas.length⟩,
    ⟨"Tables", left_db.tables.length, right_db.tables.length⟩,
    ⟨"Columns", left_db.columns.length, right_db.columns.length⟩,
    ⟨"Indexes", left_db.indexes.length, right_db.indexes.length⟩,
    ⟨"Constraints", left_db.constraints.length, right_db.constraints.length⟩,
    ⟨"Views", left_db.views.length, right_db.views.length⟩,
    ⟨"Triggers", left_db.triggers.length, right_db.triggers.length⟩,
    ⟨"Functions", left_db.functions.length, right_db.functions.length⟩,
    ⟨"Materialized Views", left_db.materialized_views.length, right_db.materialized_views.length⟩,
    ⟨"Sequences", left_db.sequences.length, right_db.sequences.length⟩]

/-- `AnalysisResult`. -/
structure AnalysisResult where
  left_db : Database
  right_db : Database
  summary : List SummaryRow
  schemas : List SchemaAnalysis
deriving DecidableEq

/-- `AnalysisResult.has_differences`: any top-level schema row differs. -/
def AnalysisResult.has_differences (r : AnalysisResult) : Bool :=
  r.schemas.any SchemaAnalysis.is_different

/-- Count `1` for `true`, `0` for `false` (one `count += 1` step). -/
def boolCount (b : Bool) : Nat :=
  if b then 1 else 0

/-- The table-level portion of the `count_differences` walk: the table is
counted on a presence mismatch only; each child is counted by its own
`is_different` (source loop order: columns, indexes, constraints, triggers). -/
def TableAnalysis.diff_count (t : TableAnalysis) : Nat :=
  boolCount (t.in_left != t.in_right)
    + (t.columns.map (fun c => boolCount c.is_different)).sum
    + (t.indexes.map (fun i => boolCount i.is_different)).sum
    + (t.constraints.map (fun c => boolCount c.is_different)).sum
    + (t.triggers.map (fun g => boolCount g.is_different)).sum

/-- The schema-level portion of the `count_differences` walk. -/
def SchemaAnalysis.diff_count (s : SchemaAnalysis) : Nat :=
  boolCount (s.in_left != s.in_right)
    + (s.tables.map TableAnalysis.diff_count).sum
    + (s.views.map (fun v => boolCount v.is_different)).sum
    + (s.materialized_views.map (fun m => boolCount m.is_different)).sum
    + (s.functions.map (fun f => boolCount f.is_different)).sum

/-- `AnalysisResult.count_differences`: the full tree walk. -/
def AnalysisResult.count_differences (r : AnalysisResult) : Nat :=
  (r.schemas.map SchemaAnalysis.diff_count).sum

/-- `analyze_databases`: summary, schema reconciliation, then child analyses
for every schema present in both databases. -/
def analyze_databases (left_db right_db : Database) : AnalysisResult :=
  { left_db := left_db, right_db := right_db,
    summary := _build_summary left_db right_db,
    schemas := (_analyze_schemas left_db right_db).map
      (fun schema =>
        if schema.in_left && schema.in_right then
          { schema with
            tables := _analyze_tables_for_schema left_db right_db schema.name,
            views := _analyze_views_for_schema left_db right_db schema.name,
            materialized_views :=
              _analyze_materialized_views_for_schema left_db right_db schema.name,
            functions := _analyze_functions_for_schema left_db right_db schema.name }
        else schema) }

/-! ## Spec-side definitions

These restate claim language (not source code) so that the theorems can
compare the implementation against it. -/

/-- Spec wording for C4: a node's own presence flags disagree or its own
field comparison is non-empty. -/
def specOwnDifferent (in_left in_right : Bool) (mods : List String) : Bool :=
  (in_left != in_right) || !mods.isEmpty

/-- Spec-side count of a table subtree: every node counted by
`specOwnDifferent` alone, containers never counted for a descendant. -/
def TableAnalysis.spec_node_count (t : TableAnalysis) : Nat :=
  boolCount (specOwnDifferent t.in_left t.in_right t.get_modifications)
    + (t.columns.map (fun c =>
        boolCount (specOwnDifferent c.in_left c.in_right c.get_modifications))).sum
    + (t.indexes.map (fun i =>
        boolCount (specOwnDifferent i.in_left i.in_right i.get_modifications))).sum
    + (t.constraints.map (fun c =>
        boolCount (specOwnDifferent c.in_left c.in_right c.get_modifications))).sum
    + (t.triggers.map (fun g =>
        boolCount (specOwnDifferent g.in_left g.in_right g.get_modifications))).sum

/-- Spec-side count of a schema subtree. -/
def SchemaAnalysis.spec_node_count (s : SchemaAnalysis) : Nat :=
  boolCount (specOwnDifferent s.in_left s.in_right s.get_modifications)
    + (s.tables.map TableAnalysis.spec_node_count).sum
    + (s.views.map (fun v =>
        boolCount (specOwnDifferent v.in_left v.in_right v.get_modifications))).sum
    + (s.materialized_views.map (fun m =>
        boolCount (specOwnDifferent m.in_left m.in_right m.get_modifications))).sum
    + (s.functions.map (fun f =>
        boolCount (specOwnDifferent f.in_left f.in_right f.get_modifications))).sum

/-- Spec-side total count for C4. -/
def AnalysisResult.spec_difference_count (r : AnalysisResult) : Nat :=
  (r.schemas.map SchemaAnalysis.spec_node_count).sum

/-- Spec wording for C2 on a table node: some descendant (its children are
all leaves) is different. -/
def TableAnalysis.descendant_different (t : TableAnalysis) : Prop :=
  (∃ c ∈ t.columns, c.is_different = true)
    ∨ (∃ g ∈ t.triggers, g.is_different = true)
    ∨ (∃ i ∈ t.indexes, i.is_different = true)
    ∨ (∃ k ∈ t.constraints, k.is_different = true)

/-- Spec wording for C2 on a schema node: some descendant at any depth
(child table / view / materialized view / function, or a grandchild under
some table) is different. -/
def SchemaAnalysis.descendant_different (s : SchemaAnalysis) : Prop :=
  (∃ t ∈ s.tables, t.is_different = true)
    ∨ (∃ t ∈ s.tables, t.descendant_different)
    ∨ (∃ v ∈ s.views, v.is_different = true)
    ∨ (∃ m ∈ s.materialized_views, m.is_different = true)
    ∨ (∃ f ∈ s.functions, f.is_different = true)

/-! ## Concrete snapshots for the scenario parts of the claims -/

/-- A snapshot with no objects at all. -/
def emptyDb : Database :=
  { connection_string := "", postgres_version := "",
    schemas := [], tables := [], columns := [], indexes := [], constraints := [],
    views := [], triggers := [], functions := [], materialized_views := [],
    sequences := [], row_counts_before_sql := [] }

/-- The `public` schema object. -/
def schPublic : Schema := ⟨"public", "owner"⟩

/-- The `audit` schema object. -/
def schAudit : Schema := ⟨"audit", "owner"⟩

/-- Table `public.t1`. -/
def tblT1 : Table := ⟨"public", "t1", "BASE TABLE", some 0⟩

/-- Table `public.t2`. -/
def tblT2 : Table := ⟨"public", "t2", "BASE TABLE", some 0⟩

/-- Table `public.only_in_left`. -/
def tblOnly : Table := ⟨"public", "only_in_left", "BASE TABLE", some 0⟩

/-- Column `public.t1.a` on the left side (type `integer`). -/
def colT1aL : Column := ⟨"public", "t1", "a", none, "NO", "integer", none, some 32, some 0⟩

/-- Column `public.t1.a` on the right side: the same column except for its
data type. -/
def colT1aR : Column := { colT1aL with data_type := "bigint" }

/-- Column `public.t1.b`, identical on both sides. -/
def colT1b : Column := ⟨"public", "t1", "b", none, "YES", "text", none, none, none⟩

/-- Column `public.t2.c`, identical on both sides. -/
def colT2c : Column := ⟨"public", "t2", "c", none, "YES", "text", none, none, none⟩

/-- Column `public.only_in_left.x`. -/
def colOnlyX : Column := ⟨"public", "only_in_left", "x", none, "YES", "text", none, none, none⟩

/-- C2 scenario, left side: schema `public` with tables `t1 (a, b)` and
`t2 (c)`. -/
def dbC2L : Database :=
  { emptyDb with
    schemas := [("public", schPublic)],
    tables := [("public.t1", tblT1), ("public.t2", tblT2)],
    columns := [("public.t1.a", colT1aL), ("public.t1.b", colT1b), ("public.t2.c", colT2c)] }

/-- C2 scenario, right side: identical except the data type of
`public.t1.a`. -/
def dbC2R : Database :=
  { emptyDb with
    schemas := [("public", schPublic)],
    tables := [("public.t1", tblT1), ("public.t2", tblT2)],
    columns := [("public.t1.a", colT1aR), ("public.t1.b", colT1b), ("public.t2.c", colT2c)] }

/-- C4 scenario, left side: schemas `{public, audit}`, no nested
differences under `public`. -/
def dbC4L : Database :=
  { emptyDb with
    schemas := [("audit", schAudit), ("public", schPublic)],
    tables := [("public.t1", tblT1)],
    columns := [("public.t1.a", colT1aL)] }

/-- C4 scenario, right side: schema set `{public}` with the identical
`public` contents. -/
def dbC4R : Database :=
  { emptyDb with
    schemas := [("public", schPublic)],
    tables := [("public.t1", tblT1)],
    columns := [("public.t1.a", colT1aL)] }

/-- C5 witness, left side: schema `audit` and table `public.only_in_left`
exist only here; the extra table has a column in the snapshot. -/
def dbC5L : Database :=
  { emptyDb with
    schemas := [("audit", schAudit), ("public", schPublic)],
    tables := [("public.only_in_left", tblOnly), ("public.t1", tblT1)],
    columns := [("public.only_in_left.x", colOnlyX), ("public.t1.a", colT1aL)] }

/-- C5 witness, right side. -/
def dbC5R : Database :=
  { emptyDb with
    schemas := [("public", schPublic)],
    tables := [("public.t1", tblT1)],
    columns := [("public.t1.a", colT1aL)] }

/-- C8 scenario: schema objects `A` and `B`. -/
def schA : Schema := ⟨"A", "owner"⟩

/-- C8 scenario: schema object `B`. -/
def schB : Schema := ⟨"B", "owner"⟩

/-- C8 scenario: the mapping `{A: 1, B: 2}` in one iteration order. -/
def dbC8a : Database := { emptyDb with schemas := [("A", schA), ("B", schB)] }

/-- C8 scenario: the same mapping in the reversed iteration order. -/
def dbC8b : Database := { emptyDb with schemas := [("B", schB), ("A", schA)] }

/-- C1 scenario: the left constraint, with definition `CHECK ((age >= 0))`. -/
def conAgeL : Constraint :=
  ⟨"public", "age_check", "public", "t", "CHECK", some "CHECK ((age >= 0))"⟩

/-- C1 scenario: the right constraint, with definition
`CHECK ((age)::integer >= 0)` and the same constraint type. -/
def conAgeR : Constraint :=
  ⟨"public", "age_check", "public", "t", "CHECK", some "CHECK ((age)::integer >= 0)"⟩

/-- C1 scenario: the constraint analysis row, present on both sides. -/
def rowAge : ConstraintAnalysis :=
  ⟨"age_check", true, true, some conAgeL, some conAgeR, "public", "t"⟩

/-- C7 scenario: left index, definition using a `::text` cast. -/
def idxCastL : Index :=
  ⟨"public", "t", "i", false, false, "CREATE INDEX i ON t ((a)::text)"⟩

/-- C7 scenario: right index, cast-free definition, same flags. -/
def idxCastR : Index :=
  ⟨"public", "t", "i", false, false, "CREATE INDEX i ON t (a)"⟩

/-- C7 scenario: the index analysis row, present on both sides. -/
def rowIdxCast : IndexAnalysis :=
  ⟨"i", true, true, some idxCastL, some idxCastR, "public", "t"⟩

/-- C7 scenario: left view, definition using a `::text` cast. -/
def viewCastL : View :=
  ⟨"public", "v", some "SELECT (a)::text FROM t", "NO", "NO"⟩

/-- C7 scenario: right view, cast-free definition, same flags. -/
def viewCastR : View :=
  ⟨"public", "v", some "SELECT a FROM t", "NO", "NO"⟩

/-- C7 scenario: the view analysis row, present on both sides. -/
def rowViewCast : ViewAnalysis :=
  ⟨"v", true, true, some viewCastL, some viewCastR, "public"⟩

/-- C9 scenario: a constraint named with dash-separated integers. -/
def conDash : Constraint :=
  ⟨"public", "64602-65125-1_not_null", "public", "t", "CHECK", some "x IS NOT NULL"⟩

/-- Two snapshots of the same database presented in (possibly) different
iteration orders: every collection is a permutation of the other side's,
and keys are unique (the dict invariant). -/
def DbPerm (d₁ d₂ : Database) : Prop :=
  d₁.schemas.Perm d₂.schemas ∧ d₁.tables.Perm d₂.tables ∧
    d₁.columns.Perm d₂.columns ∧ d₁.indexes.Perm d₂.indexes ∧
    d₁.constraints.Perm d₂.constraints ∧ d₁.views.Perm d₂.views ∧
    d₁.triggers.Perm d₂.triggers ∧ d₁.functions.Perm d₂.functions ∧
    d₁.materialized_views.Perm d₂.materialized_views ∧
    d₁.sequences.Perm d₂.sequences ∧
    (mapKeys d₁.schemas).Nodup ∧ (mapKeys d₁.tables).Nodup ∧
    (mapKeys d₁.columns).Nodup ∧ (mapKeys d₁.indexes).Nodup ∧
    (mapKeys d₁.constraints).Nodup ∧ (mapKeys d₁.views).Nodup ∧
    (mapKeys d₁.triggers).Nodup ∧ (mapKeys d₁.functions).Nodup ∧
    (mapKeys d₁.materialized_views).Nodup

/-- The `audit` schema node that `analyze_databases dbC5L dbC5R` produces. -/
def auditNodeC5 : SchemaAnalysis :=
  ⟨"audit", true, false, none, none, [], [], [], []⟩

/-- The `only_in_left` table node of the C5 run: present only on the left,
no child analyses despite the snapshot's column for it. -/
def onlyTableNodeC5 : TableAnalysis :=
  ⟨"only_in_left", true, false, some tblOnly, none, "public", [], [], [], []⟩

/-- The column node under `t1` in the C5 run. -/
def t1ColNodeC5 : ColumnAnalysis :=
  ⟨"a", true, true, some colT1aL, some colT1aL, "public", "t1"⟩

/-- The `t1` table node of the C5 run. -/
def t1NodeC5 : TableAnalysis :=
  ⟨"t1", true, true, some tblT1, some tblT1, "public", [t1ColNodeC5], [], [], []⟩

/-- The `public` schema node of the C5 run. -/
def publicNodeC5 : SchemaAnalysis :=
  ⟨"public", true, true, none, none, [onlyTableNodeC5, t1NodeC5], [], [], []⟩

/-! ## Helper lemmas: the key order -/

/-- `strLeData` is the negation of the flipped lexicographic strict order. -/
theorem strLeData_iff_not_lex : ∀ (a b : List Char),
    strLeData a b = true ↔ ¬ List.Lex (· < ·) b a
  | [], b => by
    simp only [strLeData, true_iff]
    intro h
    cases h
  | x :: xs, [] => by
    simp only [strLeData, Bool.false_eq_true, false_iff, not_not]
    exact List.Lex.nil
  | x :: xs, y :: ys => by
    simp only [strLeData]
    by_cases hxy : x < y
    · simp only [if_pos hxy, true_iff]
      intro h
      cases h with
      | cons h2 => exact absurd hxy (lt_irrefl x)
      | rel h2 => exact absurd hxy (asymm h2)
    · rw [if_neg hxy]
      by_cases hyx : y < x
      · simp only [if_pos hyx, Bool.false_eq_true, false_iff, not_not]
        exact List.Lex.rel hyx
      · have hx : x = y := le_antisymm (not_lt.mp hyx) (not_lt.mp hxy)
        subst hx
        rw [if_neg hyx, strLeData_iff_not_lex xs ys]
        constructor
        · intro h hl
          cases hl with
          | cons h2 => exact h h2
          | rel h2 => exact absurd h2 (lt_irrefl x)
        · intro h hl
          exact h (List.Lex.cons hl)

/-- The reconciler's key order is the lexicographic order on strings. -/
theorem keyLe_iff_le (s t : String) : keyLe s t ↔ s ≤ t := by
  rw [keyLe, String.le_iff_toList_le, String.toList, String.toList, ← not_lt]
  exact strLeData_iff_not_lex s.data t.data

/-- `keyLe` is total. -/
theorem keyLe_total : ∀ a b : String, keyLe a b ∨ keyLe b a := by
  intro a b
  rw [keyLe_iff_le, keyLe_iff_le]
  exact le_total a b

/-- `keyLe` is transitive. -/
theorem keyLe_trans : ∀ a b c : String, keyLe a b → keyLe b c → keyLe a c := by
  intro a b c h₁ h₂
  rw [keyLe_iff_le] at h₁ h₂ ⊢
  exact le_trans h₁ h₂

/-- `keyLe` is antisymmetric. -/
theorem keyLe_antisymm : ∀ a b : String, keyLe a b → keyLe b a → a = b := by
  intro a b h₁ h₂
  rw [keyLe_iff_le] at h₁ h₂
  exact le_antisymm h₁ h₂

/-! ## Helper lemmas: association lists and the sorted key union -/

/-- Key membership coincides with lookup success. -/
theorem mem_mapKeys {α : Type} (m : StrMap α) (k : String) :
    k ∈ mapKeys m ↔ (m.lookup k).isSome := by
  simp only [mapKeys, List.mem_map, List.lookup_isSome_iff, beq_iff_eq]
  constructor
  · rintro ⟨p, hp, rfl⟩
    exact ⟨p, hp, rfl⟩
  · rintro ⟨p, hp, rfl⟩
    exact ⟨p, hp, rfl⟩

/-- Lookup is stable under permutation when keys are unique. -/
theorem lookup_perm {α : Type} : ∀ {m₁ m₂ : StrMap α}, m₁.Perm m₂ →
    (mapKeys m₁).Nodup → ∀ k, m₁.lookup k = m₂.lookup k := by
  intro m₁ m₂ h
  induction h with
  | nil => intro _ _; rfl
  | @cons p t₁ t₂ _ ih =>
    intro hn k
    obtain ⟨pk, pv⟩ := p
    simp only [mapKeys, List.map_cons, List.nodup_cons] at hn
    simp only [List.lookup_cons]
    cases hk : k == pk
    · simp only [cond_false]
      exact ih hn.2 k
    · rfl
  | @swap p q t =>
    intro hn k
    obtain ⟨pk, pv⟩ := p
    obtain ⟨qk, qv⟩ := q
    simp only [mapKeys, List.map_cons, List.nodup_cons, List.mem_cons, not_or] at hn
    simp only [List.lookup_cons]
    cases hkq : k == qk <;> cases hkp : k == pk <;> simp only [cond_false, cond_true]
    have h1 : k = qk := by simpa using hkq
    have h2 : k = pk := by simpa using hkp
    exact absurd (h1 ▸ h2) hn.1.1
  | trans h₁₂ _ ih₁ ih₂ =>
    intro hn k
    rw [ih₁ hn k]
    refine ih₂ ?_ k
    exact ((h₁₂.map Prod.fst).nodup_iff).mp hn

/-- Looking up in a key-filtered collection. -/
theorem lookup_filter_key {α : Type} (q : String → Bool) :
    ∀ (m : StrMap α) (k : String),
      (m.filter (fun kv => q kv.1)).lookup k = if q k then m.lookup k else none := by
  intro m
  induction m with
  | nil =>
    intro k
    simp only [List.filter_nil, List.lookup_nil]
    split <;> rfl
  | cons p m ih =>
    intro k
    obtain ⟨pk, pv⟩ := p
    rw [List.filter_cons]
    cases hq : q pk
    · rw [if_neg (by simp [hq]), ih k]
      cases hk : k == pk
      · simp only [List.lookup_cons, hk, cond_false]
      · have hkk : k = pk := by simpa using hk
        subst hkk
        simp [hq]
    · rw [if_pos (by simp [hq])]
      simp only [List.lookup_cons]
      cases hk : k == pk
      · simp only [cond_false]
        rw [ih k]
      · have hkk : k = pk := by simpa using hk
        subst hkk
        simp [hq]

/-- Looking up in a value-filtered collection (keys unique). -/
theorem lookup_filter_val {α : Type} (p : α → Bool) :
    ∀ (m : StrMap α), (mapKeys m).Nodup → ∀ (k : String),
      (m.filter (fun kv => p kv.2)).lookup k
        = (m.lookup k).bind (fun v => if p v then some v else none) := by
  intro m
  induction m with
  | nil =>
    intro _ k
    rfl
  | cons q m ih =>
    intro hn k
    obtain ⟨qk, qv⟩ := q
    simp only [mapKeys, List.map_cons, List.nodup_cons] at hn
    rw [List.filter_cons]
    cases hq : p qv
    · rw [if_neg (by simp [hq]), ih hn.2 k]
      simp only [List.lookup_cons]
      cases hk : k == qk
      · simp only [cond_false]
      · simp only [cond_true]
        have hkk : k = qk := by simpa using hk
        subst hkk
        have hnone : m.lookup k = none := by
          rw [List.lookup_eq_none_iff]
          intro r hr
          simp only [bne_iff_ne, ne_eq]
          intro he
          exact hn.1 (he ▸ List.mem_map_of_mem Prod.fst hr)
        rw [hnone]
        simp [hq]
    · rw [if_pos (by simp [hq])]
      simp only [List.lookup_cons]
      cases hk : k == qk
      · simp only [cond_false]
        exact ih hn.2 k
      · simp only [cond_true]
        simp [hq]

/-- Membership in the sorted key union. -/
theorem mem_sortedUnion (ks₁ ks₂ : List String) (x : String) :
    x ∈ sortedUnion ks₁ ks₂ ↔ x ∈ ks₁ ∨ x ∈ ks₂ := by
  rw [sortedUnion, List.mem_insertionSort, List.mem_dedup, List.mem_append]

/-- The sorted key union is sorted in the key order. -/
theorem sortedUnion_sorted (ks₁ ks₂ : List String) :
    List.Sorted keyLe (sortedUnion ks₁ ks₂) := by
  haveI : IsTotal String keyLe := ⟨keyLe_total⟩
  haveI : IsTrans String keyLe := ⟨keyLe_trans⟩
  exact List.sorted_insertionSort keyLe _

/-- The sorted key union has no duplicates. -/
theorem sortedUnion_nodup (ks₁ ks₂ : List String) :
    (sortedUnion ks₁ ks₂).Nodup := by
  rw [sortedUnion]
  exact (List.perm_insertionSort keyLe _).nodup_iff.mpr (List.nodup_dedup _)

/-- Two sorted key unions with the same membership are equal. -/
theorem sortedUnion_congr {a₁ b₁ a₂ b₂ : List String}
    (h : ∀ x, x ∈ a₁ ∨ x ∈ b₁ ↔ x ∈ a₂ ∨ x ∈ b₂) :
    sortedUnion a₁ b₁ = sortedUnion a₂ b₂ := by
  haveI : IsAntisymm String keyLe := ⟨keyLe_antisymm⟩
  refine List.eq_of_perm_of_sorted ?_ (sortedUnion_sorted a₁ b₁) (sortedUnion_sorted a₂ b₂)
  refine (List.perm_ext_iff_of_nodup (sortedUnion_nodup a₁ b₁) (sortedUnion_nodup a₂ b₂)).mpr ?_
  intro x
  rw [mem_sortedUnion, mem_sortedUnion]
  exact h x

/-! ## Helper lemmas: counting -/

/-- The implementation's table-level count of `count_differences` and the
spec's own-difference-only count coincide node by node. -/
theorem table_diff_count_eq_spec (t : TableAnalysis) :
    t.diff_count = t.spec_node_count := by
  simp [TableAnalysis.diff_count, TableAnalysis.spec_node_count, specOwnDifferent,
    TableAnalysis.get_modifications, ColumnAnalysis.is_different, IndexAnalysis.is_different,
    ConstraintAnalysis.is_different, TriggerAnalysis.is_different, leafDifferent]

/-- The implementation's schema-level count and the spec's count coincide. -/
theorem schema_diff_count_eq_spec (s : SchemaAnalysis) :
    s.diff_count = s.spec_node_count := by
  simp only [SchemaAnalysis.diff_count, SchemaAnalysis.spec_node_count, specOwnDifferent,
    SchemaAnalysis.get_modifications, ViewAnalysis.is_different,
    MaterializedViewAnalysis.is_different, FunctionAnalysis.is_different, leafDifferent,
    List.isEmpty_nil, Bool.not_true, Bool.or_false]
  rw [List.map_congr_left (fun t _ => table_diff_count_eq_spec t)]

/-! ## Claim theorems -/

/-- C1 (counterexample): at the spec's own concrete input the claim fails:
the `::integer` cast is not stripped, so the right-hand definition does not
normalize to `CHECK age 0`, the modification list is non-empty, and the
action is not NONE. -/
theorem c1_counterexample :
    normalize_constraint_definition (some "CHECK ((age)::integer >= 0)") ≠ some "CHECK age 0"
      ∧ conAgeL.constraint_type = conAgeR.constraint_type
      ∧ rowAge.get_modifications ≠ []
      ∧ rowAge.action ≠ Action.NONE := by
  refine ⟨by decide, rfl, by decide, by decide⟩

/-- C1 (amended): the normalizer strips only character-varying and text
casts, so `CHECK ((age >= 0))` normalizes to `CHECK age 0` while
`CHECK ((age)::integer >= 0)` normalizes to `CHECK age integer 0`; the two
differ, `get_modifications` reports the definition change, and the
constraint is classified MODIFY, not NONE. -/
theorem c1_amended :
    normalize_constraint_definition (some "CHECK ((age >= 0))") = some "CHECK age 0"
      ∧ normalize_constraint_definition (some "CHECK ((age)::integer >= 0)")
          = some "CHECK age integer 0"
      ∧ rowAge.get_modifications = ["definition changed"]
      ∧ rowAge.action = Action.MODIFY := by
  refine ⟨by decide, by decide, by decide, by decide⟩

/-- C3: the action is a pure function of the presence flags and the
modification list; left-only is ADD whatever the modification list says,
right-only is REMOVE, both-present is MODIFY exactly when the modification
list is non-empty and NONE exactly when it is empty; and every analysis
kind derives its action this way. -/
theorem c3_action_classification :
    (∀ mods : List String,
      actionOf true false mods = Action.ADD
        ∧ actionOf false true mods = Action.REMOVE
        ∧ (actionOf true true mods = Action.MODIFY ↔ mods ≠ [])
        ∧ (actionOf true true mods = Action.NONE ↔ mods = [])
        ∧ (actionOf true true mods = Action.MODIFY ∨ actionOf true true mods = Action.NONE))
      ∧ (∀ a : ColumnAnalysis, a.action = actionOf a.in_left a.in_right a.get_modifications)
      ∧ (∀ a : TriggerAnalysis, a.action = actionOf a.in_left a.in_right a.get_modifications)
      ∧ (∀ a : IndexAnalysis, a.action = actionOf a.in_left a.in_right a.get_modifications)
      ∧ (∀ a : ConstraintAnalysis, a.action = actionOf a.in_left a.in_right a.get_modifications)
      ∧ (∀ a : FunctionAnalysis, a.action = actionOf a.in_left a.in_right a.get_modifications)
      ∧ (∀ a : ViewAnalysis, a.action = actionOf a.in_left a.in_right a.get_modifications)
      ∧ (∀ a : MaterializedViewAnalysis,
          a.action = actionOf a.in_left a.in_right a.get_modifications)
      ∧ (∀ a : TableAnalysis, a.action = actionOf a.in_left a.in_right a.get_modifications)
      ∧ (∀ a : SchemaAnalysis, a.action = actionOf a.in_left a.in_right a.get_modifications) := by
  refine ⟨?_, fun _ => rfl, fun _ => rfl, fun _ => rfl, fun _ => rfl, fun _ => rfl,
    fun _ => rfl, fun _ => rfl, fun _ => rfl, fun _ => rfl⟩
  intro mods
  cases mods <;> simp [actionOf]

/-- C4: `count_differences` equals the number of nodes, at every level,
whose own presence flags disagree or whose own field comparison is
non-empty (containers are never counted for a descendant); on the concrete
`{public, audit}` versus `{public}` scenario with no nested differences the
count is exactly 1, for the ADDed `audit` schema. -/
theorem c4_count_differences :
    (∀ r : AnalysisResult, r.count_differences = r.spec_difference_count)
      ∧ (analyze_databases dbC4L dbC4R).count_differences = 1
      ∧ ((analyze_databases dbC4L dbC4R).schemas.map (fun s => (s.name, s.action)))
          = [("audit", Action.ADD), ("public", Action.NONE)] := by
  refine ⟨?_, by decide, by decide⟩
  intro r
  rw [AnalysisResult.count_differences, AnalysisResult.spec_difference_count,
    List.map_congr_left (fun s _ => schema_diff_count_eq_spec s)]

/-- C7 (counterexample): an index pair and a view pair whose raw definitions
differ only by a `::text` cast (so they are equal after normalization) still
produce a `definition changed` entry: the index/view definitions are
compared raw, not post-normalization. -/
theorem c7_counterexample :
    normalize_constraint_definition (some idxCastL.index_definition)
        = normalize_constraint_definition (some idxCastR.index_definition)
      ∧ idxCastL.index_definition ≠ idxCastR.index_definition
      ∧ rowIdxCast.get_modifications = ["definition changed"]
      ∧ normalize_constraint_definition viewCastL.view_definition
          = normalize_constraint_definition viewCastR.view_definition
      ∧ viewCastL.view_definition ≠ viewCastR.view_definition
      ∧ rowViewCast.get_modifications = ["definition changed"] := by
  refine ⟨by decide, by decide, by decide, by decide, by decide, by decide⟩

/-- C7 (amended): index comparison checks uniqueness, then the primary
flag, then the definition; view comparison checks the updatable and
insertable flags, then the definition — but the definitions are compared by
raw string equality, without normalization: a `definition changed` entry
appears exactly when the raw definition texts differ, even if they are
equal after normalization. -/
theorem c7_amended :
    (∀ (nm sn tn : String) (il ir : Bool) (lo ro : Index),
      (IndexAnalysis.mk nm il ir (some lo) (some ro) sn tn).get_modifications
          = (if lo.is_unique ≠ ro.is_unique then
              ["unique: " ++ pyShowBool ro.is_unique ++ " -> " ++ pyShowBool lo.is_unique]
            else [])
            ++ (if lo.is_primary ≠ ro.is_primary then
              ["primary: " ++ pyShowBool ro.is_primary ++ " -> " ++ pyShowBool lo.is_primary]
            else [])
            ++ (if lo.index_definition ≠ ro.index_definition then
              ["definition changed"] else [])
        ∧ ("definition changed"
            ∈ (IndexAnalysis.mk nm il ir (some lo) (some ro) sn tn).get_modifications
          ↔ lo.index_definition ≠ ro.index_definition))
      ∧ (∀ (nm sn : String) (il ir : Bool) (lo ro : View),
        (ViewAnalysis.mk nm il ir (some lo) (some ro) sn).get_modifications
            = (if lo.is_updatable ≠ ro.is_updatable then
                ["updatable: " ++ ro.is_updatable ++ " -> " ++ lo.is_updatable]
              else [])
              ++ (if lo.is_insertable_into ≠ ro.is_insertable_into then
                ["insertable: " ++ ro.is_insertable_into ++ " -> " ++ lo.is_insertable_into]
              else [])
              ++ (if lo.view_definition ≠ ro.view_definition then
                ["definition changed"] else [])
          ∧ ("definition changed"
              ∈ (ViewAnalysis.mk nm il ir (some lo) (some ro) sn).get_modifications
            ↔ lo.view_definition ≠ ro.view_definition))
      ∧ rowIdxCast.action = Action.MODIFY
      ∧ rowViewCast.action = Action.MODIFY := by
  refine ⟨?_, ?_, by decide, by decide⟩
  · intro nm sn tn il ir lo ro
    refine ⟨rfl, ?_⟩
    rw [IndexAnalysis.get_modifications]
    simp only [List.mem_append]
    constructor
    · intro h
      rcases h with (h | h) | h
      · exfalso
        rcases Bool.dichotomy lo.is_unique with h1 | h1 <;>
          rcases Bool.dichotomy ro.is_unique with h2 | h2 <;>
            rw [h1, h2] at h <;> revert h <;> decide
      · exfalso
        rcases Bool.dichotomy lo.is_primary with h1 | h1 <;>
          rcases Bool.dichotomy ro.is_primary with h2 | h2 <;>
            rw [h1, h2] at h <;> revert h <;> decide
      · by_cases hd : lo.index_definition = ro.index_definition
        · rw [if_neg (by simpa using hd)] at h
          cases h
        · exact hd
    · intro hd
      refine Or.inr ?_
      rw [if_pos hd]
      exact List.mem_singleton.mpr rfl
  · intro nm sn il ir lo ro
    refine ⟨rfl, ?_⟩
    rw [ViewAnalysis.get_modifications]
    simp only [List.mem_append]
    constructor
    · intro h
      rcases h with (h | h) | h
      · exfalso
        by_cases hu : lo.is_updatable = ro.is_updatable
        · rw [if_neg (by simpa using hu)] at h
          cases h
        · rw [if_pos hu] at h
          have h2 := List.mem_singleton.mp h
          have h4 : ("updatable: " ++ ro.is_updatable ++ " -> " ++ lo.is_updatable).data.head?
              = some 'u' := rfl
          rw [← h2] at h4
          have h3 : ("definition changed" : String).data.head? = some 'd' := rfl
          rw [h3] at h4
          exact absurd h4 (by decide)
      · exfalso
        by_cases hu : lo.is_insertable_into = ro.is_insertable_into
        · rw [if_neg (by simpa using hu)] at h
          cases h
        · rw [if_pos hu] at h
          have h2 := List.mem_singleton.mp h
          have h4 : ("insertable: " ++ ro.is_insertable_into ++ " -> "
              ++ lo.is_insertable_into).data.head? = some 'i' := rfl
          rw [← h2] at h4
          have h3 : ("definition changed" : String).data.head? = some 'd' := rfl
          rw [h3] at h4
          exact absurd h4 (by decide)
      · by_cases hd : lo.view_definition = ro.view_definition
        · rw [if_neg (by simpa using hd)] at h
          cases h
        · exact hd
    · intro hd
      refine Or.inr ?_
      rw [if_pos hd]
      exact List.mem_singleton.mpr rfl

/-- A table whose descendant differs is itself different. -/
theorem table_descendant_imp_different (t : TableAnalysis)
    (h : t.descendant_different) : t.is_different = true := by
  rw [TableAnalysis.is_different]
  simp only [Bool.or_eq_true, List.any_eq_true]
  rcases h with h | h | h | h
  · obtain ⟨c, hc, hd⟩ := h
    exact Or.inl (Or.inl (Or.inl (Or.inr ⟨c, hc, hd⟩)))
  · obtain ⟨g, hg, hd⟩ := h
    exact Or.inl (Or.inl (Or.inr ⟨g, hg, hd⟩))
  · obtain ⟨i, hi, hd⟩ := h
    exact Or.inl (Or.inr ⟨i, hi, hd⟩)
  · obtain ⟨k, hk, hd⟩ := h
    exact Or.inr ⟨k, hk, hd⟩

/-- C2: for table and schema nodes, `is_different` holds exactly when the
node's own presence flags disagree or some descendant node (at any depth)
is different; on the concrete scenario where `public` exists on both sides
and only column `t1.a` changed type, the schema node and the `t1` node
report true while the sibling table `t2` and sibling columns report false. -/
theorem c2_is_different_propagation :
    (∀ t : TableAnalysis,
      t.is_different = true ↔ (t.in_left ≠ t.in_right ∨ t.descendant_different))
      ∧ (∀ s : SchemaAnalysis,
        s.is_different = true ↔ (s.in_left ≠ s.in_right ∨ s.descendant_different))
      ∧ ((analyze_databases dbC2L dbC2R).schemas.map
          (fun s => (s.name, s.in_left, s.in_right, s.is_different))) = [("public", true, true, true)]
      ∧ ((analyze_databases dbC2L dbC2R).schemas.map
          (fun s => s.tables.map (fun t => (t.name, t.is_different))))
          = [[("t1", true), ("t2", false)]]
      ∧ ((analyze_databases dbC2L dbC2R).schemas.map
          (fun s => s.tables.map (fun t => t.columns.map (fun c => (c.name, c.is_different)))))
          = [[[("a", true), ("b", false)], [("c", false)]]] := by
  refine ⟨?_, ?_, by decide, by decide, by decide⟩
  · intro t
    rw [TableAnalysis.is_different, TableAnalysis.descendant_different]
    simp only [Bool.or_eq_true, List.any_eq_true, bne_iff_ne, ne_eq]
    constructor
    · rintro ((((h | h) | h) | h) | h)
      · exact Or.inl h
      · exact Or.inr (Or.inl h)
      · exact Or.inr (Or.inr (Or.inl h))
      · exact Or.inr (Or.inr (Or.inr (Or.inl h)))
      · exact Or.inr (Or.inr (Or.inr (Or.inr h)))
    · rintro (h | h | h | h | h)
      · exact Or.inl (Or.inl (Or.inl (Or.inl h)))
      · exact Or.inl (Or.inl (Or.inl (Or.inr h)))
      · exact Or.inl (Or.inl (Or.inr h))
      · exact Or.inl (Or.inr h)
      · exact Or.inr h
  · intro s
    rw [SchemaAnalysis.is_different, SchemaAnalysis.descendant_different]
    simp only [Bool.or_eq_true, List.any_eq_true, bne_iff_ne, ne_eq]
    constructor
    · rintro ((((h | h) | h) | h) | h)
      · exact Or.inl h
      · exact Or.inr (Or.inl h)
      · exact Or.inr (Or.inr (Or.inr (Or.inl h)))
      · exact Or.inr (Or.inr (Or.inr (Or.inr (Or.inl h))))
      · exact Or.inr (Or.inr (Or.inr (Or.inr (Or.inr h))))
    · rintro (h | h | h | h | h | h)
      · exact Or.inl (Or.inl (Or.inl (Or.inl h)))
      · exact Or.inl (Or.inl (Or.inl (Or.inr h)))
      · obtain ⟨t, ht, hd⟩ := h
        exact Or.inl (Or.inl (Or.inl (Or.inr ⟨t, ht, table_descendant_imp_different t hd⟩)))
      · exact Or.inl (Or.inl (Or.inr h))
      · exact Or.inl (Or.inr h)
      · exact Or.inr h

/-! ## Helper lemmas: positivity of the difference count -/

/-- A sum over a mapped list is positive exactly when some element maps to a
positive value. -/
theorem sum_map_pos {α : Type} (f : α → Nat) :
    ∀ (l : List α), 0 < (l.map f).sum ↔ ∃ x ∈ l, 0 < f x
  | [] => by simp
  | a :: l => by
    simp only [List.map_cons, List.sum_cons, List.mem_cons]
    constructor
    · intro h
      by_cases hfa : 0 < f a
      · exact ⟨a, Or.inl rfl, hfa⟩
      · have hl : 0 < (l.map f).sum := by omega
        obtain ⟨x, hx, hfx⟩ := (sum_map_pos f l).mp hl
        exact ⟨x, Or.inr hx, hfx⟩
    · rintro ⟨x, hx | hx, hfx⟩
      · subst hx
        omega
      · have := (sum_map_pos f l).mpr ⟨x, hx, hfx⟩
        omega

/-- `boolCount` is positive exactly on `true`. -/
theorem boolCount_pos (b : Bool) : 0 < boolCount b ↔ b = true := by
  cases b <;> simp [boolCount]

/-- A table contributes to the count exactly when it is different. -/
theorem table_diff_count_pos (t : TableAnalysis) :
    0 < t.diff_count ↔ t.is_different = true := by
  rw [TableAnalysis.diff_count, TableAnalysis.is_different]
  simp only [add_pos_iff, sum_map_pos, boolCount_pos, Bool.or_eq_true, List.any_eq_true]
  constructor
  · rintro ((((h | h) | h) | h) | h)
    · exact Or.inl (Or.inl (Or.inl (Or.inl h)))
    · exact Or.inl (Or.inl (Or.inl (Or.inr h)))
    · exact Or.inl (Or.inr h)
    · exact Or.inr h
    · exact Or.inl (Or.inl (Or.inr h))
  · rintro ((((h | h) | h) | h) | h)
    · exact Or.inl (Or.inl (Or.inl (Or.inl h)))
    · exact Or.inl (Or.inl (Or.inl (Or.inr h)))
    · exact Or.inr h
    · exact Or.inl (Or.inl (Or.inr h))
    · exact Or.inl (Or.inr h)

/-- A schema subtree contributes to the count exactly when the schema node
is different. -/
theorem schema_diff_count_pos (s : SchemaAnalysis) :
    0 < s.diff_count ↔ s.is_different = true := by
  rw [SchemaAnalysis.diff_count, SchemaAnalysis.is_different]
  simp only [add_pos_iff, sum_map_pos, boolCount_pos, table_diff_count_pos,
    Bool.or_eq_true, List.any_eq_true]

/-- C10: for every pair of snapshots, `has_differences` holds exactly when
`count_differences` is positive. -/
theorem c10_has_differences_iff_count_pos :
    ∀ (left_db right_db : Database),
      (analyze_databases left_db right_db).has_differences = true
        ↔ 0 < (analyze_databases left_db right_db).count_differences := by
  intro left_db right_db
  rw [AnalysisResult.has_differences, AnalysisResult.count_differences]
  simp only [List.any_eq_true, sum_map_pos, schema_diff_count_pos]

/-- C5: children are analyzed only when the parent is present on both
sides: a schema node with disagreeing presence flags has no child lists at
all, and a table node with disagreeing presence flags has no column,
trigger, index or constraint children. -/
theorem c5_no_child_expansion :
    ∀ (left_db right_db : Database), ∀ s ∈ (analyze_databases left_db right_db).schemas,
      (s.in_left ≠ s.in_right →
        s.tables = [] ∧ s.views = [] ∧ s.materialized_views = [] ∧ s.functions = [])
      ∧ (∀ t ∈ s.tables, t.in_left ≠ t.in_right →
          t.columns = [] ∧ t.triggers = [] ∧ t.indexes = [] ∧ t.constraints = []) := by
  intro l r s hs
  rw [analyze_databases] at hs
  simp only [List.mem_map] at hs
  obtain ⟨s₀, hs₀, rfl⟩ := hs
  rw [_analyze_schemas, reconcile] at hs₀
  simp only [List.mem_map] at hs₀
  obtain ⟨k, hk, rfl⟩ := hs₀
  dsimp only
  by_cases hb : (mapContains l.schemas k && mapContains r.schemas k) = true
  · rw [if_pos hb]
    dsimp only
    constructor
    · intro hne
      exfalso
      rw [Bool.and_eq_true] at hb
      exact hne (hb.1.trans hb.2.symm)
    · intro t ht
      rw [_analyze_tables_for_schema, reconcile] at ht
      simp only [List.mem_map] at ht
      obtain ⟨k2, hk2, rfl⟩ := ht
      dsimp only
      intro hne
      have hb2 : (mapContains (tablesOf l k) k2 && mapContains (tablesOf r k) k2) = false := by
        cases h1 : mapContains (tablesOf l k) k2 <;> cases h2 : mapContains (tablesOf r k) k2 <;>
          simp_all
      rw [hb2]
      exact ⟨rfl, rfl, rfl, rfl⟩
  · rw [if_neg hb]
    refine ⟨fun _ => ⟨rfl, rfl, rfl, rfl⟩, fun t ht => ?_⟩
    cases ht

/-- C5 witness: in the concrete run over `dbC5L`/`dbC5R`, the left-only
`audit` schema node and the left-only `public.only_in_left` table node both
have empty child lists, by the theorem applied at those nodes. -/
theorem c5_witness :
    auditNodeC5 ∈ (analyze_databases dbC5L dbC5R).schemas
      ∧ auditNodeC5.tables = [] ∧ auditNodeC5.views = []
      ∧ auditNodeC5.materialized_views = [] ∧ auditNodeC5.functions = []
      ∧ publicNodeC5 ∈ (analyze_databases dbC5L dbC5R).schemas
      ∧ onlyTableNodeC5 ∈ publicNodeC5.tables
      ∧ onlyTableNodeC5.columns = [] ∧ onlyTableNodeC5.triggers = []
      ∧ onlyTableNodeC5.indexes = [] ∧ onlyTableNodeC5.constraints = [] := by
  have hmem : auditNodeC5 ∈ (analyze_databases dbC5L dbC5R).schemas := by decide
  have hmem2 : publicNodeC5 ∈ (analyze_databases dbC5L dbC5R).schemas := by decide
  have hmem3 : onlyTableNodeC5 ∈ publicNodeC5.tables := by decide
  have h1 := (c5_no_child_expansion dbC5L dbC5R auditNodeC5 hmem).1 (by decide)
  have h2 := (c5_no_child_expansion dbC5L dbC5R publicNodeC5 hmem2).2 onlyTableNodeC5
    hmem3 (by decide)
  exact ⟨hmem, h1.1, h1.2.1, h1.2.2.1, h1.2.2.2, hmem2, hmem3,
    h2.1, h2.2.1, h2.2.2.1, h2.2.2.2⟩

/-! ## Helper lemmas: the auto-generated constraint-name pattern -/

/-- `takeWhile`/`dropWhile` on a satisfying run followed by a failing
character. -/
theorem takeWhile_append_all {p : Char → Bool} :
    ∀ (d : List Char) {x : Char} (r : List Char), (∀ c ∈ d, p c = true) → p x = false →
      (d ++ x :: r).takeWhile p = d ∧ (d ++ x :: r).dropWhile p = x :: r
  | [], x, r, _, hx => by
    simp [List.takeWhile_cons, List.dropWhile_cons, hx]
  | c :: d, x, r, hd, hx => by
    have hc : p c = true := hd c (List.mem_cons_self c d)
    have ih := takeWhile_append_all d r (fun e he => hd e (List.mem_cons_of_mem c he)) hx
    simp only [List.cons_append, List.takeWhile_cons, List.dropWhile_cons, hc, if_pos]
    exact ⟨by rw [ih.1], by rw [ih.2]⟩

/-- `digitsThenUnderscore` succeeds exactly on a non-empty digit run
followed by an underscore. -/
theorem digitsThenUnderscore_eq_some (l r : List Char) :
    digitsThenUnderscore l = some r ↔
      ∃ d, d ≠ [] ∧ (∀ c ∈ d, pyDigit c = true) ∧ l = d ++ '_' :: r := by
  constructor
  · intro h
    rw [digitsThenUnderscore] at h
    by_cases ht : l.takeWhile pyDigit = []
    · rw [if_pos ht] at h
      cases h
    · rw [if_neg ht] at h
      cases hd : l.dropWhile pyDigit with
      | nil =>
        rw [hd] at h
        cases h
      | cons c r2 =>
        rw [hd] at h
        dsimp only at h
        by_cases hc : c = '_'
        · rw [if_pos hc] at h
          obtain rfl := Option.some.inj h
          subst hc
          refine ⟨l.takeWhile pyDigit, ht, fun e he => List.mem_takeWhile_imp he, ?_⟩
          rw [← hd, List.takeWhile_append_dropWhile]
        · rw [if_neg hc] at h
          cases h
  · rintro ⟨d, hne, hdig, rfl⟩
    have h12 := takeWhile_append_all d r hdig (by decide : pyDigit '_' = false)
    rw [digitsThenUnderscore, h12.1, h12.2, if_neg hne]
    simp

/-- `digitsThenNotNull` succeeds exactly on a non-empty digit run followed
by `_not_null` and the Python `$` end (optionally one trailing newline). -/
theorem digitsThenNotNull_iff (r4 : List Char) :
    digitsThenNotNull r4 = true
    ↔ ∃ d, d ≠ [] ∧ (∀ c ∈ d, pyDigit c = true)
        ∧ (r4 = d ++ notNullSuffix ∨ r4 = d ++ notNullSuffix ++ ['\n']) := by
  constructor
  · intro h
    rw [digitsThenNotNull] at h
    simp only [Bool.and_eq_true, decide_eq_true_eq] at h
    obtain ⟨ht, hpre, hdol⟩ := h
    obtain ⟨rest, hrest⟩ := List.isPrefixOf_iff_prefix.mp hpre
    have key := (List.takeWhile_append_dropWhile pyDigit r4).symm
    rw [← hrest] at key hdol
    rw [List.drop_left] at hdol
    rw [pyDollar] at hdol
    simp only [Bool.or_eq_true, decide_eq_true_eq] at hdol
    refine ⟨r4.takeWhile pyDigit, ht, fun e he => List.mem_takeWhile_imp he, ?_⟩
    rcases hdol with hrest0 | hrest0 <;> subst hrest0
    · left
      conv_lhs => rw [key]
      rw [List.append_nil]
    · right
      conv_lhs => rw [key]
      rw [List.append_assoc]
  · rintro ⟨d, hne, hdig, hcase⟩
    have hshape : ∀ x : List Char, notNullSuffix ++ x = '_' :: ("not_null".data ++ x) :=
      fun x => rfl
    have hx : ∃ x, (x = [] ∨ x = ['\n']) ∧ r4 = d ++ ('_' :: ("not_null".data ++ x)) := by
      rcases hcase with hcase | hcase
      · exact ⟨[], Or.inl rfl, by rw [hcase, ← hshape, List.append_nil]⟩
      · exact ⟨['\n'], Or.inr rfl, by rw [hcase, List.append_assoc, ← hshape]⟩
    obtain ⟨x, hxor, rfl⟩ := hx
    have h12 := takeWhile_append_all d ("not_null".data ++ x) hdig
      (by decide : pyDigit '_' = false)
    rw [digitsThenNotNull, h12.1, h12.2]
    simp only [Bool.and_eq_true, decide_eq_true_eq]
    refine ⟨hne, ?_, ?_⟩
    · rw [← hshape]
      exact List.isPrefixOf_iff_prefix.mpr ⟨x, rfl⟩
    · rw [← hshape, List.drop_left, pyDollar]
      rcases hxor with h | h <;> subst h <;> decide

/-- C9 (counterexample): the dash-separated name `64602-65125-1_not_null`
does not match the filter regex, so `fetch_constraints` keeps that
constraint instead of excluding it. -/
theorem c9_counterexample :
    matchAutoGen "64602-65125-1_not_null".data = false
      ∧ fetch_constraints_rows [conDash] = [conDash] := by
  exact ⟨by decide, by decide⟩

/-- C9 (amended): the filter excludes exactly the constraints whose name is
three UNDERSCORE-separated non-empty integer runs followed by `_not_null`
(with at most one trailing newline, a `$` artifact of `re`); the
underscore example matches, the dash-separated form does not, and no
non-matching constraint is excluded. -/
theorem c9_amended :
    (∀ name : List Char, matchAutoGen name = true ↔
      ∃ d₁ d₂ d₃ : List Char, d₁ ≠ [] ∧ d₂ ≠ [] ∧ d₃ ≠ []
        ∧ (∀ c ∈ d₁, pyDigit c = true) ∧ (∀ c ∈ d₂, pyDigit c = true)
        ∧ (∀ c ∈ d₃, pyDigit c = true)
        ∧ (name = d₁ ++ '_' :: (d₂ ++ '_' :: (d₃ ++ notNullSuffix))
            ∨ name = d₁ ++ '_' :: (d₂ ++ '_' :: (d₃ ++ notNullSuffix ++ ['\n']))))
      ∧ notNullSuffix = "_not_null".data
      ∧ (∀ (rows : List Constraint) (c : Constraint),
          c ∈ fetch_constraints_rows rows
            ↔ c ∈ rows ∧ matchAutoGen c.constraint_name.data = false)
      ∧ matchAutoGen "64602_65125_1_not_null".data = true
      ∧ matchAutoGen "64602-65125-1_not_null".data = false := by
  refine ⟨?_, rfl, ?_, by decide, by decide⟩
  · intro name
    rw [matchAutoGen]
    constructor
    · intro h
      cases h1 : digitsThenUnderscore name with
      | none =>
        rw [h1] at h
        cases h
      | some r2 =>
        rw [h1] at h
        dsimp only at h
        cases h2 : digitsThenUnderscore r2 with
        | none =>
          rw [h2] at h
          cases h
        | some r4 =>
          rw [h2] at h
          dsimp only at h
          obtain ⟨d₁, h1ne, h1dig, rfl⟩ := (digitsThenUnderscore_eq_some name r2).mp h1
          obtain ⟨d₂, h2ne, h2dig, rfl⟩ := (digitsThenUnderscore_eq_some r2 r4).mp h2
          obtain ⟨d₃, h3ne, h3dig, hcase⟩ := (digitsThenNotNull_iff r4).mp h
          refine ⟨d₁, d₂, d₃, h1ne, h2ne, h3ne, h1dig, h2dig, h3dig, ?_⟩
          rcases hcase with hc | hc <;> subst hc
          · exact Or.inl rfl
          · exact Or.inr rfl
    · rintro ⟨d₁, d₂, d₃, h1ne, h2ne, h3ne, h1dig, h2dig, h3dig, hcase | hcase⟩ <;>
        subst hcase
      · rw [(digitsThenUnderscore_eq_some _ _).mpr ⟨d₁, h1ne, h1dig, rfl⟩]
        dsimp only
        rw [(digitsThenUnderscore_eq_some _ _).mpr ⟨d₂, h2ne, h2dig, rfl⟩]
        dsimp only
        exact (digitsThenNotNull_iff _).mpr ⟨d₃, h3ne, h3dig, Or.inl rfl⟩
      · rw [(digitsThenUnderscore_eq_some _ _).mpr ⟨d₁, h1ne, h1dig, rfl⟩]
        dsimp only
        rw [(digitsThenUnderscore_eq_some _ _).mpr ⟨d₂, h2ne, h2dig, rfl⟩]
        dsimp only
        exact (digitsThenNotNull_iff _).mpr ⟨d₃, h3ne, h3dig, Or.inr rfl⟩
  · intro rows c
    rw [fetch_constraints_rows, List.mem_filter]
    simp only [Bool.not_eq_true']

/-! ## Helper lemmas: idempotence of the normalizer -/

/-- The space character is Python whitespace. -/
theorem pySpace_space : pySpace ' ' = true := by decide

/-- Alphanumeric characters are not whitespace. -/
theorem pyAlnum_not_space {c : Char} (h : pyAlnum c = true) : pySpace c = false := by
  rw [pyAlnum] at h
  simp only [Bool.or_eq_true, Bool.and_eq_true, decide_eq_true_eq] at h
  rw [pySpace, Bool.eq_false_iff]
  intro hs
  simp only [Bool.or_eq_true, decide_eq_true_eq, ne_eq] at hs
  omega

/-- Alphanumeric characters are not the space. -/
theorem pyAlnum_ne_space {c : Char} (h : pyAlnum c = true) : c ≠ ' ' := by
  intro he
  subst he
  exact absurd h (by decide)

/-- A good character is alphanumeric or the space. -/
theorem goodChar_cases {c : Char} (h : goodChar c = true) : pyAlnum c = true ∨ c = ' ' := by
  rw [goodChar] at h
  simp only [Bool.or_eq_true, beq_iff_eq] at h
  exact h

/-- A good non-space character is alphanumeric. -/
theorem goodChar_alnum_of_ne {c : Char} (h : goodChar c = true) (hne : c ≠ ' ') :
    pyAlnum c = true := by
  rcases goodChar_cases h with h2 | h2
  · exact h2
  · exact absurd h2 hne

/-- `OkA` is closed under taking the tail. -/
theorem OkA_tail {c : Char} {cs : List Char} (h : OkA (c :: cs)) : OkA cs :=
  ⟨fun e he => h.1 e (List.mem_cons_of_mem c he), h.2.tail⟩

/-- `collapseNA` output satisfies `OkA`, and from the in-run state it never
starts with a space. -/
theorem collapseNA_ok : ∀ (l : List Char),
    (∀ b, OkA (collapseNA b l)) ∧ (collapseNA true l).head? ≠ some ' '
  | [] => by
    constructor
    · intro b
      exact ⟨fun c hc => absurd hc (List.not_mem_nil c), List.chain'_nil⟩
    · intro h
      cases h
  | c :: cs => by
    have ih := collapseNA_ok cs
    cases ha : pyAlnum c
    · -- non-alphanumeric input character
      have hfalse : collapseNA false (c :: cs) = ' ' :: collapseNA true cs := by
        rw [collapseNA, ha]
        rfl
      have htrue : collapseNA true (c :: cs) = collapseNA true cs := by
        rw [collapseNA, ha]
        rfl
      constructor
      · intro b
        cases b
        · rw [hfalse]
          refine ⟨?_, ?_⟩
          · intro e he
            rcases List.mem_cons.mp he with rfl | he2
            · decide
            · exact (ih.1 true).1 e he2
          · rw [List.chain'_cons']
            refine ⟨?_, (ih.1 true).2⟩
            intro y hy hcon
            apply ih.2
            rw [Option.mem_def] at hy
            rw [hy, hcon.2]
        · rw [htrue]
          exact ih.1 true
      · rw [htrue]
        exact ih.2
    · have heq : ∀ b, collapseNA b (c :: cs) = c :: collapseNA false cs := by
        intro b
        rw [collapseNA, ha]
        rfl
      constructor
      · intro b
        rw [heq b]
        refine ⟨?_, ?_⟩
        · intro e he
          rcases List.mem_cons.mp he with rfl | he2
          · rw [goodChar, ha]
            rfl
          · exact (ih.1 false).1 e he2
        · rw [List.chain'_cons']
          refine ⟨?_, (ih.1 false).2⟩
          intro y _ hcon
          exact pyAlnum_ne_space ha hcon.1
      · rw [heq true]
        intro h
        simp only [List.head?_cons, Option.some.injEq] at h
        exact pyAlnum_ne_space ha h
/-- `collapseWs` is the identity on `OkA` input. -/
theorem collapseWsA_id : ∀ (l : List Char), OkA l →
    collapseWsA false l = l ∧ (l.head? ≠ some ' ' → collapseWsA true l = l)
  | [] => by
    intro _
    exact ⟨rfl, fun _ => rfl⟩
  | c :: cs => by
    intro h
    have ih := collapseWsA_id cs (OkA_tail h)
    have hgc : goodChar c = true := h.1 c (List.mem_cons_self c cs)
    by_cases hsp : c = ' '
    · subst hsp
      have hcs : cs.head? ≠ some ' ' := by
        intro hh
        cases cs with
        | nil => cases hh
        | cons d ds =>
          simp only [List.head?_cons, Option.some.injEq] at hh
          have := (List.chain'_cons'.mp h.2).1 d (by rw [List.head?_cons, Option.mem_def])
          exact this ⟨rfl, hh⟩
      constructor
      · rw [collapseWsA, if_pos pySpace_space, ih.2 hcs]
        simp
      · intro hh
        exact absurd rfl hh
    · have ha : pyAlnum c = true := goodChar_alnum_of_ne hgc hsp
      have hns : pySpace c = false := pyAlnum_not_space ha
      constructor
      · rw [collapseWsA, hns]
        simp only [Bool.false_eq_true, if_false]
        rw [ih.1]
      · intro _
        rw [collapseWsA, hns]
        simp only [Bool.false_eq_true, if_false]
        rw [ih.1]

/-- `collapseNonAlnum` is the identity on `OkA` input. -/
theorem collapseNA_id : ∀ (l : List Char), OkA l →
    collapseNA false l = l ∧ (l.head? ≠ some ' ' → collapseNA true l = l)
  | [] => by
    intro _
    exact ⟨rfl, fun _ => rfl⟩
  | c :: cs => by
    intro h
    have ih := collapseNA_id cs (OkA_tail h)
    have hgc : goodChar c = true := h.1 c (List.mem_cons_self c cs)
    by_cases hsp : c = ' '
    · subst hsp
      have hcs : cs.head? ≠ some ' ' := by
        intro hh
        cases cs with
        | nil => cases hh
        | cons d ds =>
          simp only [List.head?_cons, Option.some.injEq] at hh
          have := (List.chain'_cons'.mp h.2).1 d (by rw [List.head?_cons, Option.mem_def])
          exact this ⟨rfl, hh⟩
      constructor
      · rw [collapseNA, show pyAlnum ' ' = false from rfl]
        simp only [Bool.false_eq_true, if_false, if_neg]
        rw [ih.2 hcs]
      · intro hh
        exact absurd rfl hh
    · have ha : pyAlnum c = true := goodChar_alnum_of_ne hgc hsp
      constructor
      · rw [collapseNA, ha]
        simp only [if_true]
        rw [ih.1]
      · intro _
        rw [collapseNA, ha]
        simp only [if_true]
        rw [ih.1]

/-- Removing a colon-initial pattern is the identity on good input. -/
theorem removeOccA_id (ps : List Char) : ∀ (l : List Char),
    (∀ c ∈ l, goodChar c = true) → removeOccA ':' ps 0 l = l
  | [] => fun _ => rfl
  | c :: cs => by
    intro h
    have hgc : goodChar c = true := h c (List.mem_cons_self c cs)
    have hpre : (':' :: ps).isPrefixOf (c :: cs) = false := by
      rw [List.isPrefixOf]
      cases hb : (':' == c)
      · rfl
      · exfalso
        have : (':' : Char) = c := by simpa using hb
        rw [← this] at hgc
        exact absurd hgc (by decide)
    rw [removeOccA, hpre]
    simp only [Bool.false_eq_true, if_false]
    rw [removeOccA_id ps cs (fun e he => h e (List.mem_cons_of_mem c he))]

/-- `OkA` is closed under `dropWhile`. -/
theorem OkA_dropWhile (p : Char → Bool) {l : List Char} (h : OkA l) : OkA (l.dropWhile p) :=
  ⟨fun c hc => h.1 c ((List.dropWhile_sublist p).subset hc),
    h.2.suffix (List.dropWhile_suffix p)⟩

/-- `OkA` is closed under reversal. -/
theorem OkA_reverse {l : List Char} (h : OkA l) : OkA l.reverse := by
  refine ⟨fun c hc => h.1 c (List.mem_reverse.mp hc), ?_⟩
  rw [List.chain'_reverse]
  exact h.2.imp (fun a b hab hcon => hab ⟨hcon.2, hcon.1⟩)

/-- Stripping whitespace from a good list that does not start with a space
changes nothing. -/
theorem dropWhile_eq_self_good {l : List Char} (h : ∀ c ∈ l, goodChar c = true)
    (hh : l.head? ≠ some ' ') : l.dropWhile pySpace = l := by
  cases l with
  | nil => rfl
  | cons c cs =>
    have hcne : c ≠ ' ' := fun he => hh (by rw [List.head?_cons, he])
    have ha := goodChar_alnum_of_ne (h c (List.mem_cons_self c cs)) hcne
    rw [List.dropWhile_cons, pyAlnum_not_space ha]
    simp

/-- After `dropWhile pySpace` the head is not a space. -/
theorem head_dropWhile_ne_space (l : List Char) :
    (l.dropWhile pySpace).head? ≠ some ' ' := by
  intro hh
  have h2 := List.head?_dropWhile_not pySpace l
  rw [hh] at h2
  exact absurd h2 (by decide)

/-- A non-empty prefix shares its head with the longer list. -/
theorem prefix_head_ne {r y : List Char} (hpre : r <+: y) (hy : y.head? ≠ some ' ') :
    r.head? ≠ some ' ' := by
  cases r with
  | nil =>
    intro h
    cases h
  | cons a rs =>
    obtain ⟨t, ht⟩ := hpre
    intro h
    apply hy
    rw [← ht]
    simpa using h

/-- `pyStrip` of an `OkA` list is `OkA` and starts and ends with
non-spaces. -/
theorem pyStrip_props {l : List Char} (h : OkA l) :
    OkA (pyStrip l) ∧ (pyStrip l).head? ≠ some ' '
      ∧ (pyStrip l).reverse.head? ≠ some ' ' := by
  rw [pyStrip]
  refine ⟨OkA_reverse (OkA_dropWhile pySpace (OkA_reverse (OkA_dropWhile pySpace h))), ?_, ?_⟩
  · have hsuf : ((l.dropWhile pySpace).reverse.dropWhile pySpace)
        <:+ (l.dropWhile pySpace).reverse := List.dropWhile_suffix pySpace
    have hrw : ((l.dropWhile pySpace).reverse.dropWhile pySpace)
        = ((l.dropWhile pySpace).reverse.dropWhile pySpace).reverse.reverse :=
      (List.reverse_reverse _).symm
    rw [hrw] at hsuf
    have hpre := List.reverse_suffix.mp hsuf
    exact prefix_head_ne hpre (head_dropWhile_ne_space l)
  · rw [List.reverse_reverse]
    exact head_dropWhile_ne_space _

/-- `pyStrip` is the identity on a list with non-space ends. -/
theorem pyStrip_id {l : List Char} (h : OkA l) (h1 : l.head? ≠ some ' ')
    (h2 : l.reverse.head? ≠ some ' ') : pyStrip l = l := by
  rw [pyStrip, dropWhile_eq_self_good h.1 h1,
    dropWhile_eq_self_good (fun c hc => (OkA_reverse h).1 c hc) h2]
  exact List.reverse_reverse l

/-- Cast removal is the identity on good input. -/
theorem removeCasts_id {l : List Char} (h : ∀ c ∈ l, goodChar c = true) :
    removeCasts l = l := by
  rw [removeCasts, removeOcc, removeOcc, removeOcc, removeOcc,
    removeOccA_id ":character varying[]".data l h, removeOccA_id ":character varying".data l h,
    removeOccA_id ":text[]".data l h, removeOccA_id ":text".data l h]

/-- The normalization pipeline is idempotent at the character level. -/
theorem normCore_idem (l : List Char) : normCore (normCore l) = normCore l := by
  have hq : OkA (collapseNonAlnum (removeCasts l)) := (collapseNA_ok (removeCasts l)).1 false
  have hm : collapseWs (collapseNonAlnum (removeCasts l))
      = collapseNonAlnum (removeCasts l) := (collapseWsA_id _ hq).1
  have hcore : normCore l = pyStrip (collapseNonAlnum (removeCasts l)) := by
    rw [normCore, hm]
  obtain ⟨hrok, hrh, hrt⟩ := pyStrip_props hq
  rw [hcore]
  rw [normCore, removeCasts_id hrok.1, collapseNonAlnum, (collapseNA_id _ hrok).1]
  rw [show collapseWs (pyStrip (collapseNonAlnum (removeCasts l)))
      = pyStrip (collapseNonAlnum (removeCasts l)) from (collapseWsA_id _ hrok).1]
  exact pyStrip_id hrok hrh hrt

/-- C6: `normalize_constraint_definition` is idempotent on every string and
preserves null. -/
theorem c6_normalize_idempotent :
    (∀ s : String,
      normalize_constraint_definition (normalize_constraint_definition (some s))
        = normalize_constraint_definition (some s))
      ∧ normalize_constraint_definition none = none := by
  refine ⟨?_, rfl⟩
  intro s
  show some (String.mk (normCore (normCore s.data))) = some (String.mk (normCore s.data))
  rw [normCore_idem]

/-! ## Helper lemmas: order invariance of the reconciliation -/

/-- `reconcile` only reads the two collections through lookup and
membership; equal lookups give equal results. -/
theorem reconcile_congr {α β : Type} (lm lm' rm rm' : StrMap α)
    (mkf mkf' : String → Bool → Bool → Option α → Option α → β)
    (hl : ∀ k, lm.lookup k = lm'.lookup k) (hr : ∀ k, rm.lookup k = rm'.lookup k)
    (hmk : ∀ k, mkf k (mapContains lm k) (mapContains rm k) (lm.lookup k) (rm.lookup k)
      = mkf' k (mapContains lm' k) (mapContains rm' k) (lm'.lookup k) (rm'.lookup k)) :
    reconcile lm rm mkf = reconcile lm' rm' mkf' := by
  rw [reconcile, reconcile]
  have hkeys : sortedUnion (mapKeys lm) (mapKeys rm)
      = sortedUnion (mapKeys lm') (mapKeys rm') := by
    apply sortedUnion_congr
    intro x
    rw [mem_mapKeys, mem_mapKeys, mem_mapKeys, mem_mapKeys, hl x, hr x]
  rw [hkeys]
  apply List.map_congr_left
  intro k _
  exact hmk k

/-- `reconcile` congruence with one row builder. -/
theorem reconcile_congr_same {α β : Type} (lm lm' rm rm' : StrMap α)
    (mkf : String → Bool → Bool → Option α → Option α → β)
    (hl : ∀ k, lm.lookup k = lm'.lookup k) (hr : ∀ k, rm.lookup k = rm'.lookup k) :
    reconcile lm rm mkf = reconcile lm' rm' mkf := by
  apply reconcile_congr lm lm' rm rm' mkf mkf hl hr
  intro k
  simp only [mapContains, hl, hr]

/-- Lookups in the value-filtered collections of permuted snapshots
agree. -/
theorem lookup_filter_val_congr {α : Type} (p : α → Bool) {m₁ m₂ : StrMap α}
    (hperm : m₁.Perm m₂) (hn : (mapKeys m₁).Nodup) (k : String) :
    (m₁.filter (fun kv => p kv.2)).lookup k = (m₂.filter (fun kv => p kv.2)).lookup k := by
  rw [lookup_filter_val p m₁ hn k,
    lookup_filter_val p m₂ ((hperm.map Prod.fst).nodup_iff.mp hn) k, lookup_perm hperm hn k]

/-- Lookups in the key-filtered collections of permuted snapshots agree. -/
theorem lookup_filter_key_congr {α : Type} (q : String → Bool) {m₁ m₂ : StrMap α}
    (hperm : m₁.Perm m₂) (hn : (mapKeys m₁).Nodup) (k : String) :
    (m₁.filter (fun kv => q kv.1)).lookup k = (m₂.filter (fun kv => q kv.1)).lookup k := by
  rw [lookup_filter_key q m₁ k, lookup_filter_key q m₂ k, lookup_perm hperm hn k]
/-- The full reconciliation is invariant under the iteration order of both
input snapshots. -/
theorem analyze_databases_congr (l₁ l₂ r₁ r₂ : Database)
    (hl : DbPerm l₁ l₂) (hr : DbPerm r₁ r₂) :
    (analyze_databases l₁ r₁).schemas = (analyze_databases l₂ r₂).schemas
      ∧ (analyze_databases l₁ r₁).summary = (analyze_databases l₂ r₂).summary := by
  obtain ⟨hpS, hpT, hpC, hpI, hpK, hpV, hpG, hpF, hpM, hpQ,
    hnS, hnT, hnC, hnI, hnK, hnV, hnG, hnF, hnM⟩ := hl
  obtain ⟨gpS, gpT, gpC, gpI, gpK, gpV, gpG, gpF, gpM, gpQ,
    gnS, gnT, gnC, gnI, gnK, gnV, gnG, gnF, gnM⟩ := hr
  have hcol : ∀ sn tn, _analyze_columns_for_table l₁ r₁ sn tn
      = _analyze_columns_for_table l₂ r₂ sn tn := by
    intro sn tn
    rw [_analyze_columns_for_table, _analyze_columns_for_table]
    apply reconcile_congr_same
    · intro k
      rw [columnsOf, columnsOf]
      exact lookup_filter_key_congr (fun s => (sn ++ "." ++ tn ++ ".").data.isPrefixOf s.data) hpC hnC k
    · intro k
      rw [columnsOf, columnsOf]
      exact lookup_filter_key_congr (fun s => (sn ++ "." ++ tn ++ ".").data.isPrefixOf s.data) gpC gnC k
  have htrg : ∀ sn tn, _analyze_triggers_for_table l₁ r₁ sn tn
      = _analyze_triggers_for_table l₂ r₂ sn tn := by
    intro sn tn
    rw [_analyze_triggers_for_table, _analyze_triggers_for_table]
    apply reconcile_congr_same
    · intro k
      rw [triggersOf, triggersOf]
      exact lookup_filter_val_congr (fun v => v.event_object_schema == sn && v.event_object_table == tn) hpG hnG k
    · intro k
      rw [triggersOf, triggersOf]
      exact lookup_filter_val_congr (fun v => v.event_object_schema == sn && v.event_object_table == tn) gpG gnG k
  have hidx : ∀ sn tn, _analyze_indexes_for_table l₁ r₁ sn tn
      = _analyze_indexes_for_table l₂ r₂ sn tn := by
    intro sn tn
    rw [_analyze_indexes_for_table, _analyze_indexes_for_table]
    apply reconcile_congr_same
    · intro k
      rw [indexesOf, indexesOf]
      exact lookup_filter_val_congr (fun v => v.schema_name == sn && v.table_name == tn) hpI hnI k
    · intro k
      rw [indexesOf, indexesOf]
      exact lookup_filter_val_congr (fun v => v.schema_name == sn && v.table_name == tn) gpI gnI k
  have hcst : ∀ sn tn, _analyze_constraints_for_table l₁ r₁ sn tn
      = _analyze_constraints_for_table l₂ r₂ sn tn := by
    intro sn tn
    rw [_analyze_constraints_for_table, _analyze_constraints_for_table]
    apply reconcile_congr_same
    · intro k
      rw [constraintsOf, constraintsOf]
      exact lookup_filter_val_congr (fun v => v.table_schema == sn && v.table_name == tn) hpK hnK k
    · intro k
      rw [constraintsOf, constraintsOf]
      exact lookup_filter_val_congr (fun v => v.table_schema == sn && v.table_name == tn) gpK gnK k
  have hvw : ∀ sn, _analyze_views_for_schema l₁ r₁ sn = _analyze_views_for_schema l₂ r₂ sn := by
    intro sn
    rw [_analyze_views_for_schema, _analyze_views_for_schema]
    apply reconcile_congr_same
    · intro k
      rw [viewsOf, viewsOf]
      exact lookup_filter_val_congr (fun v => v.table_schema == sn) hpV hnV k
    · intro k
      rw [viewsOf, viewsOf]
      exact lookup_filter_val_congr (fun v => v.table_schema == sn) gpV gnV k
  have hmv : ∀ sn, _analyze_materialized_views_for_schema l₁ r₁ sn
      = _analyze_materialized_views_for_schema l₂ r₂ sn := by
    intro sn
    rw [_analyze_materialized_views_for_schema, _analyze_materialized_views_for_schema]
    apply reconcile_congr_same
    · intro k
      rw [matviewsOf, matviewsOf]
      exact lookup_filter_val_congr (fun v => v.schema_name == sn) hpM hnM k
    · intro k
      rw [matviewsOf, matviewsOf]
      exact lookup_filter_val_congr (fun v => v.schema_name == sn) gpM gnM k
  have hfn : ∀ sn, _analyze_functions_for_schema l₁ r₁ sn
      = _analyze_functions_for_schema l₂ r₂ sn := by
    intro sn
    rw [_analyze_functions_for_schema, _analyze_functions_for_schema]
    apply reconcile_congr_same
    · intro k
      rw [functionsOf, functionsOf]
      exact lookup_filter_val_congr (fun v => v.schema_name == sn) hpF hnF k
    · intro k
      rw [functionsOf, functionsOf]
      exact lookup_filter_val_congr (fun v => v.schema_name == sn) gpF gnF k
  have htabL : ∀ sn k, List.lookup k (tablesOf l₁ sn) = List.lookup k (tablesOf l₂ sn) := by
    intro sn k
    rw [tablesOf, tablesOf]
    exact lookup_filter_val_congr (fun v => v.table_schema == sn) hpT hnT k
  have htabR : ∀ sn k, List.lookup k (tablesOf r₁ sn) = List.lookup k (tablesOf r₂ sn) := by
    intro sn k
    rw [tablesOf, tablesOf]
    exact lookup_filter_val_congr (fun v => v.table_schema == sn) gpT gnT k
  have htab : ∀ sn, _analyze_tables_for_schema l₁ r₁ sn = _analyze_tables_for_schema l₂ r₂ sn := by
    intro sn
    rw [_analyze_tables_for_schema, _analyze_tables_for_schema]
    apply reconcile_congr
    · exact htabL sn
    · exact htabR sn
    · intro k
      simp only [mapContains, htabL sn, htabR sn, hcol, htrg, hidx, hcst]
  have hsch : _analyze_schemas l₁ r₁ = _analyze_schemas l₂ r₂ := by
    rw [_analyze_schemas, _analyze_schemas]
    exact reconcile_congr_same _ _ _ _ _ (lookup_perm hpS hnS) (lookup_perm gpS gnS)
  constructor
  · rw [analyze_databases, analyze_databases]
    dsimp only
    rw [hsch]
    apply List.map_congr_left
    intro s _
    by_cases hb : (s.in_left && s.in_right) = true
    · rw [if_pos hb, if_pos hb, htab, hvw, hmv, hfn]
    · rw [if_neg hb, if_neg hb]
  · rw [analyze_databases, analyze_databases]
    dsimp only
    rw [_build_summary, _build_summary, hpS.length_eq, hpT.length_eq, hpC.length_eq,
      hpI.length_eq, hpK.length_eq, hpV.length_eq, hpG.length_eq, hpF.length_eq,
      hpM.length_eq, hpQ.length_eq, gpS.length_eq, gpT.length_eq, gpC.length_eq,
      gpI.length_eq, gpK.length_eq, gpV.length_eq, gpG.length_eq, gpF.length_eq,
      gpM.length_eq, gpQ.length_eq]

/-- The sorted key union is sorted in the standard string order. -/
theorem sortedUnion_sorted_le (ks₁ ks₂ : List String) :
    List.Sorted (· ≤ ·) (sortedUnion ks₁ ks₂) :=
  (sortedUnion_sorted ks₁ ks₂).imp (fun h => (keyLe_iff_le _ _).mp h)

/-- The produced schema rows carry exactly the sorted key union as their
names. -/
theorem schemas_map_name (l r : Database) :
    (analyze_databases l r).schemas.map SchemaAnalysis.name = all_schema_names l r := by
  rw [analyze_databases]
  dsimp only
  rw [List.map_map, _analyze_schemas, reconcile, List.map_map, all_schema_names]
  refine (List.map_congr_left ?_).trans (List.map_id _)
  intro k _
  dsimp only [Function.comp]
  split <;> rfl

/-- C8: the schema list is produced in lexicographic key order (its names
are exactly the sorted key union), every child key list the reconciler
iterates is lexicographically sorted, the classification is independent of
the iteration order of the two input mappings, and on the concrete
`{A: 1, B: 2}` scenario the output is sorted and fully classified. -/
theorem c8_sorted_and_order_independent :
    (∀ l r : Database,
      (analyze_databases l r).schemas.map SchemaAnalysis.name = all_schema_names l r)
      ∧ (∀ l r : Database, List.Sorted (· ≤ ·) (all_schema_names l r))
      ∧ (∀ (l r : Database) (sn : String), List.Sorted (· ≤ ·) (all_table_names l r sn))
      ∧ (∀ (l r : Database) (sn tn : String), List.Sorted (· ≤ ·) (all_column_keys l r sn tn))
      ∧ (∀ (l r : Database) (sn tn : String), List.Sorted (· ≤ ·) (all_trigger_keys l r sn tn))
      ∧ (∀ (l r : Database) (sn tn : String), List.Sorted (· ≤ ·) (all_index_keys l r sn tn))
      ∧ (∀ (l r : Database) (sn tn : String), List.Sorted (· ≤ ·) (all_constraint_keys l r sn tn))
      ∧ (∀ (l r : Database) (sn : String), List.Sorted (· ≤ ·) (all_view_names l r sn))
      ∧ (∀ (l r : Database) (sn : String), List.Sorted (· ≤ ·) (all_matview_names l r sn))
      ∧ (∀ (l r : Database) (sn : String), List.Sorted (· ≤ ·) (all_func_keys l r sn))
      ∧ (∀ l₁ l₂ r₁ r₂ : Database, DbPerm l₁ l₂ → DbPerm r₁ r₂ →
          (analyze_databases l₁ r₁).schemas = (analyze_databases l₂ r₂).schemas
            ∧ (analyze_databases l₁ r₁).summary = (analyze_databases l₂ r₂).summary)
      ∧ ((analyze_databases dbC8a dbC8a).schemas.map (fun s => (s.name, s.action)))
          = [("A", Action.NONE), ("B", Action.NONE)] := by
  refine ⟨schemas_map_name, fun l r => sortedUnion_sorted_le _ _,
    fun l r sn => sortedUnion_sorted_le _ _, fun l r sn tn => sortedUnion_sorted_le _ _,
    fun l r sn tn => sortedUnion_sorted_le _ _, fun l r sn tn => sortedUnion_sorted_le _ _,
    fun l r sn tn => sortedUnion_sorted_le _ _, fun l r sn => sortedUnion_sorted_le _ _,
    fun l r sn => sortedUnion_sorted_le _ _, fun l r sn => sortedUnion_sorted_le _ _,
    analyze_databases_congr, by decide⟩

/-- C8 witness: reconciling `{A: 1, B: 2}` against itself presented in the
reversed iteration order yields the identical classified output, by the
theorem applied at the concrete snapshots. -/
theorem c8_witness :
    (analyze_databases dbC8a dbC8a).schemas = (analyze_databases dbC8b dbC8a).schemas
      ∧ (analyze_databases dbC8a dbC8a).summary = (analyze_databases dbC8b dbC8a).summary := by
  have hab : DbPerm dbC8a dbC8b :=
    ⟨List.Perm.swap ("B", schB) ("A", schA) [], List.Perm.refl _, List.Perm.refl _,
      List.Perm.refl _, List.Perm.refl _, List.Perm.refl _, List.Perm.refl _,
      List.Perm.refl _, List.Perm.refl _, List.Perm.refl _, by decide, by decide,
      by decide, by decide, by decide, by decide, by decide, by decide, by decide⟩
  have haa : DbPerm dbC8a dbC8a :=
    ⟨List.Perm.refl _, List.Perm.refl _, List.Perm.refl _, List.Perm.refl _,
      List.Perm.refl _, List.Perm.refl _, List.Perm.refl _, List.Perm.refl _,
      List.Perm.refl _, List.Perm.refl _, by decide, by decide, by decide, by decide,
      by decide, by decide, by decide, by decide, by decide⟩
  exact c8_sorted_and_order_independent.2.2.2.2.2.2.2.2.2.2.1 dbC8a dbC8b dbC8a dbC8a hab haa

end Pgcmp
